import Mathlib

/-!
Shallow embedding of the 0list waitlist API core (signup intake, confirmation,
admin signup patch, status endpoint, origin matcher, rate limiter, analytics
daily series, CSV export) together with theorems settling the spec claims.

Sources embedded:
  * apps/api/src/api/public.ts  (isOriginAllowed, POST /:slug/signup,
    GET /:slug/confirm/:token, GET /:slug/status)
  * apps/api/src/api/admin.ts   (PATCH signup, CSV export, stats daily series)
  * middleware/rate-limit.ts    (rateLimit, signupRateLimit)
  * lib/utils.ts                (isValidEmail, normalizeEmail)

The database is modelled as an in-memory list of rows; each handler is a pure
function from (waitlists, signups, request data) to (new signups, result).
Text is modelled as `List Char` (the character content of a JS string) so that
every operation is a structural computation the kernel can evaluate; the
char-list helpers below mirror the String methods the source uses.
-/

namespace Olist

/-- Text content of a JS string. -/
abbrev Str := List Char

/-- Coerce a Lean string literal to its character list. -/
def str (s : String) : Str := s.data

/-- `a.isPrefixOf`-style test on char lists (used to find substrings). -/
def isPfx : Str → Str → Bool
  | [], _ => true
  | _ :: _, [] => false
  | a :: as, b :: bs => decide (a = b) && isPfx as bs

/-- Split at the first occurrence of `sep` (nonempty in all uses): returns the
part before and the part after, or `none` when `sep` does not occur. -/
def splitFirstOn (sep : Str) : Str → Option (Str × Str)
  | [] => none
  | c :: rest =>
    if isPfx sep (c :: rest) then some ([], List.drop sep.length (c :: rest))
    else
      match splitFirstOn sep rest with
      | some (a, b) => some (c :: a, b)
      | none => none

/-- Whether `sep` occurs in `l` (mirrors `s.includes(sep)` /
`s.splitOn(sep).length > 1`). -/
def containsSeq (sep l : Str) : Bool := (splitFirstOn sep l).isSome

/-- `String.prototype.toLowerCase` (ASCII range, which is all the source
compares). -/
def toLowerStr (l : Str) : Str := l.map Char.toLower

/-- `String.prototype.trim`. -/
def trimStr (l : Str) : Str :=
  ((l.dropWhile Char.isWhitespace).reverse.dropWhile Char.isWhitespace).reverse

/-- `String.prototype.startsWith p`. -/
def leadsWith (p l : Str) : Bool := isPfx p l

/-- `String.prototype.endsWith p`. -/
def trailsWith (p l : Str) : Bool := isPfx p.reverse l.reverse

/-- Signup status enum from db/schema.ts: `enum: ["pending","confirmed","invited"]`. -/
inductive SignupStatus
  | pending
  | confirmed
  | invited
deriving DecidableEq, Repr

/-- Custom field schema entry (bindings: `{key, label, type, required, ...}`);
only the parts the embedded handlers read. -/
structure CustomField where
  key : Str
  label : Str
  required : Bool
deriving DecidableEq, Repr

/-- A waitlist row (db/schema.ts `waitlists`), restricted to the columns the
embedded handlers read. -/
structure Waitlist where
  id : Str
  name : Str
  slug : Str
  doubleOptIn : Bool
  redirectUrl : Option Str
  customFields : List CustomField
  allowedOrigins : List Str
deriving DecidableEq, Repr

/-- A signup row (db/schema.ts `signups`).  Timestamps are unix seconds. -/
structure Signup where
  id : Str
  waitlistId : Str
  email : Str
  position : Nat
  status : SignupStatus
  customData : List (Str × Str)
  referralSource : Option Str
  ipAddress : Option Str
  userAgent : Option Str
  confirmationToken : Option Str
  confirmedAt : Option Nat
  createdAt : Nat
deriving DecidableEq, Repr

/-- `db.query.waitlists.findFirst({where: eq(waitlists.slug, slug)})`. -/
def findWaitlistBySlug (wls : List Waitlist) (slug : Str) : Option Waitlist :=
  wls.find? (fun w => decide (w.slug = slug))

/- ===================== Origin matcher (public.ts:32-67) ===================== -/

/-- Model of the WHATWG `new URL(s)` parse restricted to what `isOriginAllowed`
reads: for an origin-shaped string `scheme://host[:port][/path...]` it yields
the lowercased scheme and `host` (host incl. port, up to the first `/`);
anything else is a parse failure (the source's `catch` branch). -/
def urlSchemeHost (s : Str) : Option (Str × Str) :=
  match splitFirstOn (str "://") s with
  | none => none
  | some (scheme, rest) =>
    if scheme.isEmpty || rest.isEmpty || containsSeq (str "://") rest then none
    else some (toLowerStr scheme, toLowerStr (rest.takeWhile (fun c => c ≠ '/')))

/-- public.ts:32-67 `isOriginAllowed(origin, allowedOrigins)`. -/
def isOriginAllowed (origin : Str) (allowedOrigins : List Str) : Bool :=
  -- If no origins configured, allow all (open access)
  if allowedOrigins.isEmpty then
    true
  else
    match urlSchemeHost origin with
    | none => false
    | some (originScheme, originHost) =>
      allowedOrigins.any fun pattern =>
        let normalizedPattern := trimStr (toLowerStr pattern)
        if leadsWith (str "*.") normalizedPattern then
          -- Wildcard: *.example.com matches sub.example.com
          let domain := normalizedPattern.drop 2
          decide (originHost = domain) || trailsWith ('.' :: domain) originHost
        else if containsSeq (str "://") normalizedPattern then
          -- Exact match (with protocol): compare URL origins
          match urlSchemeHost normalizedPattern with
          | some p => decide ((originScheme, originHost) = p)
          | none => false
        else
          -- Host-only match
          decide (originHost = normalizedPattern)

/- ===================== Status endpoint (public.ts:356-381) ===================== -/

inductive PublicErr
  | waitlistNotFound
  | notFound
  | invalidEmail
  | validationError (label : Str)
  | alreadySignedUp
  | emailError
deriving DecidableEq, Repr

/-- The `COUNT(*)` of public.ts:368-371: signups of the waitlist whose status
equals `"confirmed"` (and only that status). -/
def statusSignupCount (db : List Signup) (wid : Str) : Nat :=
  (db.filter (fun s => decide (s.waitlistId = wid ∧ s.status = SignupStatus.confirmed))).length

structure StatusResp where
  name : Str
  slug : Str
  signupCount : Nat
deriving DecidableEq, Repr

/-- public.ts:356-381 `GET /:slug/status`. -/
def statusHandler (wls : List Waitlist) (db : List Signup) (slug : Str) :
    Except PublicErr StatusResp :=
  match findWaitlistBySlug wls slug with
  | none => .error .waitlistNotFound
  | some wl => .ok ⟨wl.name, wl.slug, statusSignupCount db wl.id⟩

/-- Modelled from the spec: the claimed count, "number of that waitlist's
signups whose status is confirmed or invited" (spec §6: "confirmed+invited
count only").  Kept separate from `statusSignupCount` for comparison. -/
def claimedActiveCount (db : List Signup) (wid : Str) : Nat :=
  (db.filter (fun s => decide (s.waitlistId = wid ∧
    (s.status = SignupStatus.confirmed ∨ s.status = SignupStatus.invited)))).length

/- ===================== Email validation (lib/utils.ts) ===================== -/

/-- Matchability of the utils.ts regex `/^[^\s@]+@[^\s@]+\.[^\s@]+$/`:
the string splits at its unique `@` into a nonempty local part and a domain,
neither containing whitespace or `@`, and the domain has a `.` that is neither
its first nor its last character (so both regex pieces around it are
nonempty). -/
def emailRegexTest (l : Str) : Bool :=
  match splitFirstOn ['@'] l with
  | none => false
  | some (localPart, domain) =>
    !(domain.contains '@') &&
    !(localPart.isEmpty) &&
    localPart.all (fun c => !(Char.isWhitespace c)) &&
    domain.all (fun c => !(Char.isWhitespace c)) &&
    ((domain.drop 1).dropLast.contains '.')

/-- utils.ts:21-24 `isValidEmail`. -/
def isValidEmail (email : Str) : Bool :=
  emailRegexTest email && decide (email.length ≤ 254)

/-- utils.ts:29-31 `normalizeEmail` (lowercase + trim). -/
def normalizeEmail (email : Str) : Str := trimStr (toLowerStr email)

/- ===================== Signup workflow (public.ts:124-278) ===================== -/

/-- `customData?.[key]` lookup in the submitted record. -/
def lookupKV (m : List (Str × Str)) (k : Str) : Option Str :=
  (m.find? (fun p => decide (p.1 = k))).map (fun p => p.2)

/-- JS record assignment `obj[k] = v` (replace existing key, else append). -/
def setKV : List (Str × Str) → Str → Str → List (Str × Str)
  | [], k, v => [(k, v)]
  | (k', v') :: rest, k, v =>
    if k' = k then (k, v) :: rest else (k', v') :: setKV rest k v

/-- public.ts:144-158: iterate the waitlist's custom field schema, failing on a
required field whose submitted value is missing or blank after trimming
(JS falsiness makes the empty string count as missing), collecting the trimmed
values of the known, truthy fields.  Unknown submitted keys never enter. -/
def validateCustomFields :
    List CustomField → List (Str × Str) → List (Str × Str) →
    Except PublicErr (List (Str × Str))
  | [], _, acc => .ok acc
  | f :: fs, supplied, acc =>
    let value := lookupKV supplied f.key
    let missing :=
      match value with
      | none => true
      | some v => v.isEmpty || (trimStr v).isEmpty
    if f.required && missing then
      .error (.validationError f.label)
    else
      let acc' :=
        match value with
        | some v => if v.isEmpty then acc else setKV acc f.key (trimStr v)
        | none => acc
      validateCustomFields fs supplied acc'

/-- `findFirst({where: and(eq(waitlistId,..), eq(email,..))})`. -/
def findSignupByEmail (db : List Signup) (wid email : Str) : Option Signup :=
  db.find? (fun s => decide (s.waitlistId = wid ∧ s.email = email))

/-- public.ts:209-214 `COALESCE(MAX(position), 0)` over the waitlist's rows. -/
def maxPosition (db : List Signup) (wid : Str) : Nat :=
  ((db.filter (fun s => decide (s.waitlistId = wid))).map (fun s => s.position)).foldr
    Nat.max 0

structure SignupReq where
  email : Str
  customData : List (Str × Str)
  referralSource : Option Str
deriving DecidableEq, Repr

/-- The email-provider environment: whether sending is configured
(`isEmailConfigured`) and whether each kind of send would fail (the
nondeterministic outcome of the provider call, passed in as an oracle). -/
structure SignupEnv where
  emailConfigured : Bool
  confirmEmailFails : Bool
  welcomeEmailFails : Bool
  adminEmailFails : Bool
deriving DecidableEq, Repr

/-- Outcome of one provider send: `throw` or normal return. -/
def sendRes (fails : Bool) : Except Unit Unit := if fails then .error () else .ok ()

structure SignupResp where
  message : Str
  position : Nat
  requiresConfirmation : Bool
  redirectUrl : Option Str
deriving DecidableEq, Repr

/-- public.ts:124-278 `POST /:slug/signup`.  Returns the new signup table, the
`console.warn`/`console.error` log lines, and the response or thrown error.
`tok` is the token `generateToken()` would produce, `newId`/`now` the fresh row
id and current time.  A confirmation-email failure (`sendConfirmationEmail`)
is NOT caught; welcome/admin notification failures are caught and logged. -/
def signupHandler (wls : List Waitlist) (db : List Signup) (slug : Str)
    (req : SignupReq) (env : SignupEnv) (tok newId : Str) (ip ua : Option Str)
    (now : Nat) : List Signup × List Str × Except PublicErr SignupResp :=
  match findWaitlistBySlug wls slug with
  | none => (db, [], .error .waitlistNotFound)
  | some wl =>
    let email := normalizeEmail req.email
    if ¬ isValidEmail email then (db, [], .error .invalidEmail)
    else
      match validateCustomFields wl.customFields req.customData [] with
      | .error e => (db, [], .error e)
      | .ok customData =>
        match findSignupByEmail db wl.id email with
        | some existingSignup =>
          if existingSignup.status = .confirmed ∨ existingSignup.status = .invited then
            (db, [], .error .alreadySignedUp)
          else if wl.doubleOptIn ∧ existingSignup.status = .pending ∧
              env.emailConfigured then
            -- Still pending: regenerate token, persist, resend confirmation.
            -- "Let it throw if email fails - user needs the confirmation email"
            let db' := db.map fun r =>
              if r.id = existingSignup.id then { r with confirmationToken := some tok }
              else r
            match sendRes env.confirmEmailFails with
            | .error _ => (db', [], .error .emailError)
            | .ok _ =>
              (db', [],
                .ok ⟨str "Confirmation email resent. Please check your inbox.",
                  existingSignup.position, true, none⟩)
          else (db, [], .error .alreadySignedUp)
        | none =>
          let useDoubleOptIn := wl.doubleOptIn ∧ env.emailConfigured
          let warnLogs :=
            if wl.doubleOptIn ∧ ¬ env.emailConfigured then
              [str "[Signup] Double opt-in enabled but email not configured, falling back to direct confirmation"]
            else []
          let position := maxPosition db wl.id + 1
          let newSignup : Signup :=
            { id := newId, waitlistId := wl.id, email := email, position := position,
              status := if useDoubleOptIn then .pending else .confirmed,
              customData := customData, referralSource := req.referralSource,
              ipAddress := ip, userAgent := ua,
              confirmationToken := if useDoubleOptIn then some tok else none,
              confirmedAt := if useDoubleOptIn then none else some now,
              createdAt := now }
          let db' := db ++ [newSignup]
          if useDoubleOptIn then
            -- Confirmation email is required for double opt-in - let it throw
            match sendRes env.confirmEmailFails with
            | .error _ => (db', warnLogs, .error .emailError)
            | .ok _ =>
              (db', warnLogs,
                .ok ⟨str "Please check your email to confirm your spot.", position,
                  true, wl.redirectUrl⟩)
          else
            -- Welcome/admin emails are nice-to-have: try/catch, log only
            let caught : Except Unit Unit :=
              if env.emailConfigured then do
                let _ ← sendRes env.welcomeEmailFails
                sendRes env.adminEmailFails
              else .ok ()
            let logs := warnLogs ++
              match caught with
              | .error _ => [str "[Signup] Failed to send welcome/notification email"]
              | .ok _ => []
            (db', logs, .ok ⟨str "You're on the list!", position, false, wl.redirectUrl⟩)

/- ===================== Confirmation handler (public.ts:280-354) ===================== -/

structure ConfirmOk where
  message : Str
  position : Nat
deriving DecidableEq, Repr

inductive ConfirmResult
  | redirect (url : Str)
  | jsonOk (r : ConfirmOk)
deriving DecidableEq, Repr

/-- `findFirst({where: and(eq(waitlistId,..), eq(confirmationToken, token))})`;
rows with a NULL token never match. -/
def findSignupByToken (db : List Signup) (wid tok : Str) : Option Signup :=
  db.find? (fun s => decide (s.waitlistId = wid ∧ s.confirmationToken = some tok))

/-- public.ts:280-354 `GET /:slug/confirm/:token`. -/
def confirmHandler (wls : List Waitlist) (db : List Signup) (slug tok : Str)
    (now : Nat) (welcomeEmailFails adminEmailFails : Bool) :
    List Signup × List Str × Except PublicErr ConfirmResult :=
  match findWaitlistBySlug wls slug with
  | none => (db, [], .error .waitlistNotFound)
  | some wl =>
    match findSignupByToken db wl.id tok with
    | none => (db, [], .error .notFound)
    | some s =>
      if s.status = .confirmed ∨ s.status = .invited then
        match wl.redirectUrl with
        | some u => (db, [], .ok (.redirect u))
        | none =>
          (db, [], .ok (.jsonOk ⟨str "Your email is already confirmed.", s.position⟩))
      else
        let db' := db.map fun r =>
          if r.id = s.id then
            { r with status := .confirmed, confirmedAt := some now,
                     confirmationToken := none }
          else r
        let caught : Except Unit Unit := do
          let _ ← sendRes welcomeEmailFails
          sendRes adminEmailFails
        let logs :=
          match caught with
          | .error _ => [str "[Confirm] Failed to send emails"]
          | .ok _ => []
        match wl.redirectUrl with
        | some u => (db', logs, .ok (.redirect u))
        | none =>
          (db', logs, .ok (.jsonOk ⟨str "Your email has been confirmed!", s.position⟩))

/- ===================== Admin signup patch (admin.ts:482-515) ===================== -/

inductive AdminErr
  | signupNotFound
deriving DecidableEq, Repr

/-- admin.ts:482-515 `PATCH /waitlists/:id/signups/:signupId` with body
`{status?}`.  When a status is supplied, the update sets `status` and stamps
`confirmedAt := now` only if the new status is `confirmed` and the found row's
`confirmedAt` is null; nothing else is written and no other row is touched.
When no status is supplied the update map stays empty and no write happens. -/
def adminPatchSignup (db : List Signup) (wid sid : Str)
    (newStatus : Option SignupStatus) (now : Nat) :
    List Signup × Except AdminErr Signup :=
  match db.find? (fun s => decide (s.id = sid ∧ s.waitlistId = wid)) with
  | none => (db, .error .signupNotFound)
  | some s =>
    match newStatus with
    | none => (db, .ok s)
    | some st =>
      let upd : Signup → Signup := fun r =>
        { r with status := st,
                 confirmedAt :=
                   if st = SignupStatus.confirmed ∧ s.confirmedAt = none then some now
                   else r.confirmedAt }
      (db.map (fun r => if r.id = sid then upd r else r), .ok (upd s))

/-- The claimed invariant of C3: a non-null confirmation token only while the
signup is pending. -/
def tokenOnlyWhilePending (s : Signup) : Prop :=
  s.confirmationToken ≠ none → s.status = SignupStatus.pending

/- ===================== Rate limiter (middleware/rate-limit.ts) ===================== -/

/-- One entry of the `rateLimitStore` Map: `{count, resetAt}` (epoch ms). -/
structure RateRecord where
  count : Nat
  resetAt : Nat
deriving DecidableEq, Repr

/-- The module-level `rateLimitStore` (a JS Map, modelled insertion-ordered). -/
abbrev RateStore := List (Str × RateRecord)

/-- `rateLimitStore.get(key)`. -/
def storeGet (st : RateStore) (k : Str) : Option RateRecord :=
  (st.find? (fun p => decide (p.1 = k))).map (fun p => p.2)

/-- `rateLimitStore.set(key, record)` / in-place `record.count++` mutation:
replace the key's record, appending when absent. -/
def storeSet : RateStore → Str → RateRecord → RateStore
  | [], k, v => [(k, v)]
  | (k', v') :: rest, k, v =>
    if k' = k then (k, v) :: rest else (k', v') :: storeSet rest k v

/-- rate-limit.ts:19-29 `cleanupExpiredIfNeeded`: sweep expired records, but
only when the store holds more than 1000 entries. -/
def cleanupExpiredIfNeeded (st : RateStore) (now : Nat) : RateStore :=
  if st.length > 1000 then st.filter (fun p => decide (¬ p.2.resetAt < now)) else st

/-- The middleware's observable outcome: the `X-RateLimit-{Limit,Remaining,
Reset}` headers plus, on rejection, the `Retry-After` value (seconds). -/
inductive RateOutcome
  | allowed (limit remaining reset : Nat)
  | limited (limit remaining reset retryAfter : Nat)
deriving DecidableEq, Repr

/-- rate-limit.ts:58-68: set the headers and either throw `RateLimited`
(post-increment count exceeds max) with `Retry-After = ceil((resetAt-now)/1000)`
or pass through.  `Remaining = max(0, max-count)`, `Reset = ceil(resetAt/1000)`. -/
def rateLimitFinish (maxReq now : Nat) (st1 : RateStore) (record : RateRecord) :
    RateStore × RateOutcome :=
  if maxReq < record.count then
    (st1, .limited maxReq (maxReq - record.count) ((record.resetAt + 999) / 1000)
      ((record.resetAt - now + 999) / 1000))
  else
    (st1, .allowed maxReq (maxReq - record.count) ((record.resetAt + 999) / 1000))

/-- rate-limit.ts:41-69: one request through the `rateLimit({windowMs, max})`
middleware for `key` at time `now` (ms): cleanup; then either start a fresh
window (`count=1, resetAt=now+windowMs`) if no record exists or the record's
window has expired (`resetAt < now`), or increment the count in place. -/
def rateLimit (windowMs maxReq : Nat) (key : Str) (now : Nat) (st : RateStore) :
    RateStore × RateOutcome :=
  let st0 := cleanupExpiredIfNeeded st now
  let record :=
    match storeGet st0 key with
    | none => ({ count := 1, resetAt := now + windowMs } : RateRecord)
    | some r =>
      if r.resetAt < now then { count := 1, resetAt := now + windowMs }
      else { count := r.count + 1, resetAt := r.resetAt }
  rateLimitFinish maxReq now (storeSet st0 key record) record

/-- rate-limit.ts:75-82 `signupRateLimit`: 10 signups per IP per hour, keyed
`signup:<ip>` (or `signup:unknown`). -/
def signupRateLimit (ip : Option Str) (now : Nat) (st : RateStore) :
    RateStore × RateOutcome :=
  rateLimit (60 * 60 * 1000) 10 (str "signup:" ++ ip.getD (str "unknown")) now st

/-- Run a sequence of requests (given their arrival times) through the same
rate-limit policy and key, threading the store. -/
def runRequests (windowMs maxReq : Nat) (key : Str) :
    List Nat → RateStore → RateStore × List RateOutcome
  | [], st => (st, [])
  | t :: ts, st =>
    let p := rateLimit windowMs maxReq key t st
    let q := runRequests windowMs maxReq key ts p.1
    (q.1, p.2 :: q.2)

/-- The outcome sequence the middleware produces for requests at times `ts`
against a live window `(count=c, resetAt=R)` none of which arrive after `R`:
each request increments the count and is allowed until the count passes
`maxReq`, after which each is limited with the remaining-window ceiling. -/
def expectedOutcomes (maxReq c R : Nat) : List Nat → List RateOutcome
  | [] => []
  | t :: ts =>
    (if maxReq < c + 1 then
      RateOutcome.limited maxReq (maxReq - (c + 1)) ((R + 999) / 1000)
        ((R - t + 999) / 1000)
     else RateOutcome.allowed maxReq (maxReq - (c + 1)) ((R + 999) / 1000)) ::
    expectedOutcomes maxReq (c + 1) R ts

/- ===================== Stats daily series (admin.ts:612-641) ===================== -/

/-- `DATE(createdAt, 'unixepoch')` as a day index (`createdAt` unix seconds;
calendar dates correspond one-to-one to day numbers since the epoch). -/
def dayOf (t : Nat) : Nat := t / 86400

/-- One `{date, count, confirmed}` entry of the daily series (`date` a day
index). -/
structure DayRow where
  date : Nat
  count : Nat
  confirmed : Nat
deriving DecidableEq, Repr

/-- The waitlist's signups whose `DATE(createdAt)` is day `d`. -/
def signupsOnDay (db : List Signup) (wid : Str) (d : Nat) : List Signup :=
  db.filter (fun s => decide (s.waitlistId = wid ∧ dayOf s.createdAt = d))

/-- Of those, the ones `IN ('confirmed','invited')`. -/
def confirmedOnDay (db : List Signup) (wid : Str) (d : Nat) : List Signup :=
  (signupsOnDay db wid d).filter (fun s =>
    decide (s.status = SignupStatus.confirmed ∨ s.status = SignupStatus.invited))

/-- admin.ts:614-623: the SQL `GROUP BY DATE(createdAt) ORDER BY ASC` over the
waitlist's rows inside `[fromD*86400, toD*86400+86399]` (the handler's
`fromTimestamp`/`toTimestamp` for day bounds `fromD`/`toD`): one row per day
that has signups, ascending; `count` is the group size and `confirmed` the
`SUM(CASE WHEN status IN ('confirmed','invited')...)`.  Rendered by
enumerating the candidate days of the window in order and dropping empty
groups, which is exactly the set of distinct days of the filtered rows. -/
def dailyGroups (db : List Signup) (wid : Str) (fromD toD : Nat) : List DayRow :=
  ((List.range (toD + 1 - fromD)).map (fun i => fromD + i)).filterMap (fun d =>
    let onDay := db.filter (fun s => decide (s.waitlistId = wid ∧
      fromD * 86400 ≤ s.createdAt ∧ s.createdAt ≤ toD * 86400 + 86399 ∧
      dayOf s.createdAt = d))
    if onDay.isEmpty then none
    else some ⟨d, onDay.length,
      (onDay.filter (fun s => decide (s.status = SignupStatus.confirmed ∨
        s.status = SignupStatus.invited))).length⟩)

/-- `dateMap.get(dateStr)` (admin.ts:627). -/
def findDay (groups : List DayRow) (d : Nat) : Option DayRow :=
  groups.find? (fun g => decide (g.date = d))

/-- admin.ts:625-641: the gap-filling loop `for (d = startDate; d <= endDate;
d.setUTCDate(+1))`, pushing `{date, count: data?.count ?? 0, confirmed:
data?.confirmed ?? 0}` for every day of `[fromD, toD]`. -/
def fillDailySignups (groups : List DayRow) (fromD toD : Nat) : List DayRow :=
  (List.range (toD + 1 - fromD)).map (fun i =>
    match findDay groups (fromD + i) with
    | some g => ⟨fromD + i, g.count, g.confirmed⟩
    | none => ⟨fromD + i, 0, 0⟩)

/- ===================== CSV export (admin.ts:437-480) ===================== -/

/-- `cell.replace(/"/g, '""')`. -/
def escapeQuotes (s : Str) : Str :=
  s.flatMap (fun c => if c = '"' then ['"', '"'] else [c])

/-- A fully quoted CSV cell: `` `"${cell.replace(/"/g, '""')}"` ``. -/
def quoteCell (s : Str) : Str := '"' :: (escapeQuotes s ++ ['"'])

/-- `Array.prototype.join(sep)`. -/
def joinSep (sep : Str) : List Str → Str
  | [] => []
  | [x] => x
  | x :: y :: rest => x ++ sep ++ joinSep sep (y :: rest)

/-- One CSV line: `row.map(cell => quoted).join(",")` (admin.ts:473). -/
def rowLine (cells : List Str) : Str := joinSep [','] (cells.map quoteCell)

/-- The rendering of a status cell. -/
def statusStr : SignupStatus → Str
  | .pending => str "pending"
  | .confirmed => str "confirmed"
  | .invited => str "invited"

/-- Decimal rendering of a number cell (`position.toString()`). -/
def natStr (n : Nat) : Str := (toString n).data

/-- admin.ts:458-468: one exported data row, in column order position, email,
status, referral_source, each custom field key in schema order, confirmed_at,
created_at; null-ish cells become `""`.  `render` stands for the external
`Date.prototype.toISOString`. -/
def signupRow (render : Nat → Str) (keys : List Str) (s : Signup) : List Str :=
  natStr s.position :: s.email :: statusStr s.status :: s.referralSource.getD [] ::
    (keys.map (fun k => (lookupKV s.customData k).getD []) ++
      [(s.confirmedAt.map render).getD [], render s.createdAt])

/-- admin.ts:449-453: the export query — the waitlist's signups ordered by
ascending position. -/
def exportQuery (db : List Signup) (wid : Str) : List Signup :=
  (db.filter (fun s => decide (s.waitlistId = wid))).mergeSort
    (fun a b => decide (a.position ≤ b.position))

/-- admin.ts:455-474: the CSV text — an unquoted header line (`position,
email,status,referral_source,<keys>,confirmed_at,created_at`) followed by one
quoted line per signup, all joined with `\n`. -/
def exportCsv (render : Nat → Str) (keys : List Str) (signups : List Signup) :
    Str :=
  joinSep ['\n']
    (joinSep [','] ([str "position", str "email", str "status",
        str "referral_source"] ++ keys ++ [str "confirmed_at", str "created_at"]) ::
      signups.map (fun s => rowLine (signupRow render keys s)))

/- ===================== RFC4180-style CSV parse (for the round trip) ===================== -/

/-- Inside a quoted region: `""` is a literal quote, a lone `"` closes the
region (anything after it up to the separator is handled by the caller), and
end of input closes an unterminated region. -/
def parseQuoted : Str → Str → Str × Str
  | [], acc => (acc, [])
  | c :: rest, acc =>
    if c = '"' then
      match rest with
      | c2 :: rest2 =>
        if c2 = '"' then parseQuoted rest2 (acc ++ ['"']) else (acc, rest)
      | [] => (acc, [])
    else parseQuoted rest (acc ++ [c])

/-- An unquoted field: everything up to the next `,`/`\n` (separator left in
the remainder). -/
def parseUnquoted : Str → Str × Str
  | [] => ([], [])
  | c :: rest =>
    if c = ',' ∨ c = '\n' then ([], c :: rest)
    else
      let p := parseUnquoted rest
      (c :: p.1, p.2)

/-- One field: a leading `"` opens a quoted region (lenient: stray characters
between the closing quote and the separator are appended literally); any
other leading character starts an unquoted field. -/
def parseField (l : Str) : Str × Str :=
  match l with
  | [] => ([], [])
  | c :: rest =>
    if c = '"' then
      let q := parseQuoted rest []
      let u := parseUnquoted q.2
      (q.1 ++ u.1, u.2)
    else parseUnquoted (c :: rest)

/-- One record: fields separated by `,`, terminated by `\n` (consumed; third
component `true`), end of input (`false`), or — unreachable for `parseField`
remainders — any other character.  `fuel` bounds the number of fields. -/
def parseRowAux : Nat → Str → List Str × Str × Bool
  | 0, input => ([], input, false)
  | fuel + 1, input =>
    let f := parseField input
    match f.2 with
    | [] => ([f.1], [], false)
    | c :: rest =>
      if c = ',' then
        let r := parseRowAux fuel rest
        (f.1 :: r.1, r.2)
      else if c = '\n' then ([f.1], rest, true)
      else ([f.1], [], false)

/-- All records of a CSV text; empty input yields no records and a trailing
newline yields no trailing empty record.  `fuel` bounds the number of rows. -/
def parseCsvAux : Nat → Str → List (List Str)
  | 0, _ => []
  | fuel + 1, input =>
    if input.isEmpty then []
    else
      let r := parseRowAux (input.length + 1) input
      r.1 :: (if r.2.2 then parseCsvAux fuel r.2.1 else [])

/-- Parse a CSV text into its records. -/
def parseCsv (l : Str) : List (List Str) := parseCsvAux (l.length + 1) l

/-- The remainder a quoted cell may legally be followed by: nothing, or a
separator. -/
def sepStart : Str → Prop
  | [] => True
  | c :: _ => c = ',' ∨ c = '\n'

end Olist

namespace Olist

/- ===================== Theorems ===================== -/

/-- If nothing in `l₁` satisfies `p`, searching the concatenation searches `l₂`. -/
theorem find?_append_of_none {α} (p : α → Bool) (l₁ l₂ : List α)
    (h : l₁.find? p = none) : (l₁ ++ l₂).find? p = l₂.find? p := by
  rw [List.find?_append, h, Option.none_or]

/-- C6 counterexample: with pattern list exactly `["*.example.com"]` the claim
says `https://example.com` is NOT allowed; the code allows it, because the
wildcard branch tests `originHost === domain` in addition to the dot-suffix
test. -/
theorem c6_wildcard_allows_bare_apex :
    isOriginAllowed (str "https://example.com") [str "*.example.com"] = true := by
  decide

/-- C6 (amended): the pattern `*.example.com` allows `https://a.example.com`
AND the bare apex `https://example.com` (the wildcard branch also matches the
apex host exactly); the empty pattern list allows every origin. -/
theorem c6_origin_matcher_amended :
    isOriginAllowed (str "https://a.example.com") [str "*.example.com"] = true ∧
    isOriginAllowed (str "https://example.com") [str "*.example.com"] = true ∧
    ∀ origin : Str, isOriginAllowed origin [] = true := by
  refine ⟨by decide, by decide, fun origin => ?_⟩
  simp [isOriginAllowed]

/-- C5 counterexample: a waitlist whose only signup has status `invited`.  The
claim says `signupCount` is the confirmed+invited count (= 1); the handler
counts only status `confirmed` and returns 0. -/
theorem c5_invited_not_counted :
    (statusHandler
      [⟨str "w1", str "Beta", str "beta", false, none, [], []⟩]
      [⟨str "s1", str "w1", str "a@example.com", 1, SignupStatus.invited, [], none,
        none, none, none, some 5, 0⟩]
      (str "beta") =
      Except.ok ⟨str "Beta", str "beta", 0⟩) ∧
    claimedActiveCount
      [⟨str "s1", str "w1", str "a@example.com", 1, SignupStatus.invited, [], none,
        none, none, none, some 5, 0⟩] (str "w1") = 1 := by
  constructor
  · rfl
  · rfl

/-- C5 (amended): for every existing waitlist, `GET /w/{slug}/status` returns
`signupCount` equal to the number of that waitlist's signups whose status is
exactly `confirmed`; `invited` (and `pending`) signups are not counted. -/
theorem c5_status_counts_confirmed_only
    (wls : List Waitlist) (db : List Signup) (slug : Str) (wl : Waitlist)
    (hw : findWaitlistBySlug wls slug = some wl) :
    statusHandler wls db slug =
      Except.ok ⟨wl.name, wl.slug,
        (db.filter (fun s => decide (s.waitlistId = wl.id ∧
          s.status = SignupStatus.confirmed))).length⟩ := by
  simp [statusHandler, hw, statusSignupCount]

/-- Witness for `c5_status_counts_confirmed_only` at a concrete waitlist with
one confirmed, one invited and one pending signup. -/
theorem c5_status_counts_confirmed_only_witness :
    statusHandler
      [⟨str "w1", str "Beta", str "beta", false, none, [], []⟩]
      [⟨str "s1", str "w1", str "a@x.com", 1, SignupStatus.confirmed, [], none, none,
        none, none, some 3, 0⟩,
       ⟨str "s2", str "w1", str "b@x.com", 2, SignupStatus.invited, [], none, none,
        none, none, some 4, 0⟩,
       ⟨str "s3", str "w1", str "c@x.com", 3, SignupStatus.pending, [], none, none,
        none, some (str "t"), none, 0⟩]
      (str "beta") =
      Except.ok ⟨str "Beta", str "beta", 1⟩ := by
  have h := c5_status_counts_confirmed_only
    [⟨str "w1", str "Beta", str "beta", false, none, [], []⟩]
    [⟨str "s1", str "w1", str "a@x.com", 1, SignupStatus.confirmed, [], none, none,
      none, none, some 3, 0⟩,
     ⟨str "s2", str "w1", str "b@x.com", 2, SignupStatus.invited, [], none, none,
      none, none, some 4, 0⟩,
     ⟨str "s3", str "w1", str "c@x.com", 3, SignupStatus.pending, [], none, none,
      none, some (str "t"), none, 0⟩]
    (str "beta")
    ⟨str "w1", str "Beta", str "beta", false, none, [], []⟩
    (by rfl)
  rw [h]
  rfl

/-- C10: the admin signup status patch writes only `status` and `confirmedAt`;
`confirmedAt` is stamped with the current time exactly when the new status is
`confirmed` and the found signup's `confirmedAt` was null (so re-confirming an
already-confirmed signup keeps its original timestamp, and resetting to
`pending` leaves `confirmedAt` unchanged); rows whose id differs are
untouched. -/
theorem c10_admin_patch_frame
    (db : List Signup) (wid sid : Str) (st : SignupStatus) (now : Nat) (s : Signup)
    (hf : db.find? (fun r => decide (r.id = sid ∧ r.waitlistId = wid)) = some s) :
    (adminPatchSignup db wid sid (some st) now).1.length = db.length ∧
    ∀ i (hi : i < db.length)
      (hi' : i < (adminPatchSignup db wid sid (some st) now).1.length),
      let r := db.get ⟨i, hi⟩
      let r' := (adminPatchSignup db wid sid (some st) now).1.get ⟨i, hi'⟩
      r'.id = r.id ∧ r'.waitlistId = r.waitlistId ∧ r'.email = r.email ∧
      r'.position = r.position ∧ r'.customData = r.customData ∧
      r'.referralSource = r.referralSource ∧ r'.ipAddress = r.ipAddress ∧
      r'.userAgent = r.userAgent ∧ r'.confirmationToken = r.confirmationToken ∧
      r'.createdAt = r.createdAt ∧
      (r.id ≠ sid → r' = r) ∧
      (r.id = sid → r'.status = st ∧
        r'.confirmedAt = (if st = SignupStatus.confirmed ∧ s.confirmedAt = none
          then some now else r.confirmedAt)) := by
  have hA : adminPatchSignup db wid sid (some st) now =
      (db.map (fun r =>
        if r.id = sid then
          { r with status := st,
                   confirmedAt :=
                     if st = SignupStatus.confirmed ∧ s.confirmedAt = none then some now
                     else r.confirmedAt }
        else r),
       .ok { s with status := st,
                    confirmedAt :=
                      if st = SignupStatus.confirmed ∧ s.confirmedAt = none then some now
                      else s.confirmedAt }) := by
    simp only [adminPatchSignup, hf]
  refine ⟨by rw [hA]; simp, ?_⟩
  intro i hi hi'
  simp only [hA, List.get_eq_getElem, List.getElem_map]
  by_cases h : (db.get ⟨i, hi⟩).id = sid
  · simp only [List.get_eq_getElem] at h
    simp [h]
  · simp only [List.get_eq_getElem] at h
    simp [h]

/-- Witness for `c10_admin_patch_frame`: patching an already-confirmed signup
(`confirmedAt = some 5`) to `confirmed` again keeps the original timestamp,
and the other row is untouched. -/
theorem c10_admin_patch_frame_witness :
    ((adminPatchSignup
      [⟨str "a", str "w1", str "a@x.com", 1, SignupStatus.pending, [], none, none,
        none, some (str "ta"), none, 0⟩,
       ⟨str "b", str "w1", str "b@x.com", 2, SignupStatus.confirmed, [], none, none,
        none, none, some 5, 0⟩]
      (str "w1") (str "b") (some SignupStatus.confirmed) 99).1.get ⟨1, by decide⟩).confirmedAt
      = some 5 ∧
    ((adminPatchSignup
      [⟨str "a", str "w1", str "a@x.com", 1, SignupStatus.pending, [], none, none,
        none, some (str "ta"), none, 0⟩,
       ⟨str "b", str "w1", str "b@x.com", 2, SignupStatus.confirmed, [], none, none,
        none, none, some 5, 0⟩]
      (str "w1") (str "b") (some SignupStatus.confirmed) 99).1.get ⟨0, by decide⟩) =
      ⟨str "a", str "w1", str "a@x.com", 1, SignupStatus.pending, [], none, none,
        none, some (str "ta"), none, 0⟩ := by
  have h := c10_admin_patch_frame
    [⟨str "a", str "w1", str "a@x.com", 1, SignupStatus.pending, [], none, none,
      none, some (str "ta"), none, 0⟩,
     ⟨str "b", str "w1", str "b@x.com", 2, SignupStatus.confirmed, [], none, none,
      none, none, some 5, 0⟩]
    (str "w1") (str "b") SignupStatus.confirmed 99
    ⟨str "b", str "w1", str "b@x.com", 2, SignupStatus.confirmed, [], none, none,
      none, none, some 5, 0⟩
    (by rfl)
  constructor
  · have h1 := (h.2 1 (by decide) (by decide)).2.2.2.2.2.2.2.2.2.2.2 (by decide)
    simpa using h1.2
  · exact (h.2 0 (by decide) (by decide)).2.2.2.2.2.2.2.2.2.2.1 (by decide)

/-- C3 counterexample: a pending signup holding token `"t"` patched to
`confirmed` by the admin endpoint keeps its non-null token, violating the
claimed invariant (the patch never writes `confirmationToken`). -/
theorem c3_admin_patch_keeps_token :
    (adminPatchSignup
      [⟨str "s1", str "w1", str "a@x.com", 1, SignupStatus.pending, [], none, none,
        none, some (str "t"), none, 0⟩]
      (str "w1") (str "s1") (some SignupStatus.confirmed) 99).1 =
      [⟨str "s1", str "w1", str "a@x.com", 1, SignupStatus.confirmed, [], none, none,
        none, some (str "t"), some 99, 0⟩] ∧
    ¬ tokenOnlyWhilePending
      ⟨str "s1", str "w1", str "a@x.com", 1, SignupStatus.confirmed, [], none, none,
        none, some (str "t"), some 99, 0⟩ := by
  constructor
  · rfl
  · intro h
    simpa using h (by simp)

/-- C3 (amended): the invariant "a non-null confirmation token only while the
signup is pending" is preserved by the public signup workflow (assuming unique
row ids, as the primary key guarantees) and by the token confirmation handler;
the admin status patch, however, never writes `confirmationToken` at all (it
leaves every row's token exactly as it was), so patching a tokened pending
signup to `confirmed`/`invited` leaves the token non-null. -/
theorem c3_token_invariant_amended :
    (∀ (wls : List Waitlist) (db : List Signup) (slug : Str) (req : SignupReq)
        (env : SignupEnv) (tok newId : Str) (ip ua : Option Str) (now : Nat),
      (db.map Signup.id).Nodup →
      (∀ r ∈ db, tokenOnlyWhilePending r) →
      ∀ r ∈ (signupHandler wls db slug req env tok newId ip ua now).1,
        tokenOnlyWhilePending r) ∧
    (∀ (wls : List Waitlist) (db : List Signup) (slug tok : Str) (now : Nat)
        (wf af : Bool),
      (∀ r ∈ db, tokenOnlyWhilePending r) →
      ∀ r ∈ (confirmHandler wls db slug tok now wf af).1, tokenOnlyWhilePending r) ∧
    (∀ (db : List Signup) (wid sid : Str) (ns : Option SignupStatus) (now : Nat),
      (adminPatchSignup db wid sid ns now).1.map Signup.confirmationToken =
        db.map Signup.confirmationToken) := by
  refine ⟨?_, ?_, ?_⟩
  · intro wls db slug req env tok newId ip ua now hnd hinv r hr
    cases hW : findWaitlistBySlug wls slug with
    | none =>
      simp only [signupHandler, hW] at hr
      exact hinv r hr
    | some wl =>
      by_cases hval : isValidEmail (normalizeEmail req.email) = true
      · cases hcf : validateCustomFields wl.customFields req.customData [] with
        | error e =>
          simp only [signupHandler, hW, hval, hcf, not_true, if_false] at hr
          exact hinv r (by simpa using hr)
        | ok cd =>
          cases hex : findSignupByEmail db wl.id (normalizeEmail req.email) with
          | some ex =>
            by_cases h1 : ex.status = SignupStatus.confirmed ∨
                ex.status = SignupStatus.invited
            · simp only [signupHandler, hW, hval, hcf, hex, h1, if_true] at hr
              exact hinv r (by simpa using hr)
            · by_cases h2 : (wl.doubleOptIn : Prop) ∧ ex.status = SignupStatus.pending ∧
                  (env.emailConfigured : Prop)
              · have hexmem : ex ∈ db := List.mem_of_find?_eq_some hex
                cases hcef : env.confirmEmailFails <;>
                · simp only [signupHandler, hW, hval, hcf, hex, h1, h2, hcef, sendRes,
                    not_true, if_false, if_true] at hr
                  rcases List.mem_map.mp (by simpa using hr) with ⟨x, hx, hfx⟩
                  by_cases hid : x.id = ex.id
                  · intro _
                    have hxe : x = ex :=
                      List.inj_on_of_nodup_map hnd hx hexmem hid
                    rw [← hfx]
                    simp only [hid, if_true, if_pos]
                    show x.status = SignupStatus.pending
                    rw [hxe]
                    exact h2.2.1
                  · rw [← hfx]
                    simp only [hid, if_false, if_neg hid]
                    exact hinv x hx
              · simp only [signupHandler, hW, hval, hcf, hex, h1, h2, if_false] at hr
                exact hinv r (by simpa using hr)
          | none =>
            by_cases hdo : (wl.doubleOptIn : Prop) ∧ (env.emailConfigured : Prop)
            · cases hcef : env.confirmEmailFails <;>
              · simp only [signupHandler, hW, hval, hcf, hex, hdo, hcef, sendRes,
                  not_true, if_false, if_true] at hr
                rcases (by simpa using hr : r ∈ db ∨ r = _) with hl | hrr
                · exact hinv r hl
                · intro _
                  have : r.status = SignupStatus.pending := by rw [hrr]
                  exact this
            · simp only [signupHandler, hW, hval, hcf, hex, hdo, not_true,
                if_false] at hr
              rcases (by simpa using hr : r ∈ db ∨ r = _) with hl | hrr
              · exact hinv r hl
              · intro htok
                exfalso
                apply htok
                rw [hrr]
      · simp only [signupHandler, hW, hval] at hr
        exact hinv r (by simpa using hr)
  · intro wls db slug tok now wf af hinv r hr
    cases hW : findWaitlistBySlug wls slug with
    | none =>
      simp only [confirmHandler, hW] at hr
      exact hinv r hr
    | some wl =>
      cases hT : findSignupByToken db wl.id tok with
      | none =>
        simp only [confirmHandler, hW, hT] at hr
        exact hinv r hr
      | some s =>
        by_cases hst : s.status = SignupStatus.confirmed ∨
            s.status = SignupStatus.invited
        · cases hru : wl.redirectUrl <;>
          · simp only [confirmHandler, hW, hT, hst, hru, if_true] at hr
            exact hinv r (by simpa using hr)
        · cases hru : wl.redirectUrl <;>
          · simp only [confirmHandler, hW, hT, hst, hru, if_false] at hr
            rcases List.mem_map.mp (by simpa using hr) with ⟨x, hx, hfx⟩
            by_cases hid : x.id = s.id
            · rw [← hfx]
              simp only [hid, if_true, if_pos]
              intro htok
              exact absurd rfl htok
            · rw [← hfx]
              simp only [hid, if_false, if_neg hid]
              exact hinv x hx
  · intro db wid sid ns now
    cases hf : db.find? (fun s => decide (s.id = sid ∧ s.waitlistId = wid)) with
    | none =>
      have hA : adminPatchSignup db wid sid ns now = (db, .error .signupNotFound) := by
        simp only [adminPatchSignup, hf]
      rw [hA]
    | some s =>
      cases ns with
      | none =>
        have hA : adminPatchSignup db wid sid none now = (db, .ok s) := by
          simp only [adminPatchSignup, hf]
        rw [hA]
      | some st =>
        simp only [adminPatchSignup, hf, List.map_map]
        apply List.map_congr_left
        intro a _
        by_cases hid : a.id = sid <;> simp [hid]

/-- Witness for `c3_token_invariant_amended`: on a concrete one-row table the
admin patch to `invited` leaves the token list `[some "t"]` unchanged, and
after a concrete confirmation run every row still satisfies the invariant. -/
theorem c3_token_invariant_amended_witness :
    (adminPatchSignup
      [⟨str "s1", str "w1", str "a@x.com", 1, SignupStatus.pending, [], none, none,
        none, some (str "t"), none, 0⟩]
      (str "w1") (str "s1") (some SignupStatus.invited) 7).1.map
        Signup.confirmationToken = [some (str "t")] ∧
    tokenOnlyWhilePending
      ⟨str "s1", str "w1", str "a@x.com", 1, SignupStatus.confirmed, [], none, none,
        none, none, some 9, 0⟩ := by
  constructor
  · exact (c3_token_invariant_amended.2.2
      [⟨str "s1", str "w1", str "a@x.com", 1, SignupStatus.pending, [], none, none,
        none, some (str "t"), none, 0⟩]
      (str "w1") (str "s1") (some SignupStatus.invited) 7).trans (by rfl)
  · exact c3_token_invariant_amended.2.1
      [⟨str "w1", str "Beta", str "beta", true, none, [], []⟩]
      [⟨str "s1", str "w1", str "a@x.com", 1, SignupStatus.pending, [], none, none,
        none, some (str "t"), none, 0⟩]
      (str "beta") (str "t") 9 false false
      (by intro r hr; rcases List.mem_singleton.mp hr with rfl; intro _; rfl)
      ⟨str "s1", str "w1", str "a@x.com", 1, SignupStatus.confirmed, [], none, none,
        none, none, some 9, 0⟩
      (by decide)

/-- C1: redeeming a pending signup's token succeeds (redirect or JSON carrying
the position), sets status `confirmed`, stamps `confirmedAt`, and nulls the
token; a signup already confirmed/invited when looked up by token yields
success with the existing position and no table change; and once the token has
been cleared, a second confirm with the same token fails `NOT_FOUND`. -/
theorem c1_confirm_token_lifecycle
    (wls : List Waitlist) (db : List Signup) (slug t : Str) (wl : Waitlist)
    (s : Signup) (now now' now'' : Nat) (wf wf' wf'' af af' af'' : Bool)
    (hw : findWaitlistBySlug wls slug = some wl)
    (hopt : wl.doubleOptIn = true)
    (hf : findSignupByToken db wl.id t = some s)
    (hs : s.status = SignupStatus.pending)
    (huniq : ∀ r ∈ db, r.waitlistId = wl.id → r.confirmationToken = some t → r = s) :
    (confirmHandler wls db slug t now wf af).2.2 =
      .ok (match wl.redirectUrl with
        | some u => ConfirmResult.redirect u
        | none =>
          ConfirmResult.jsonOk ⟨str "Your email has been confirmed!", s.position⟩) ∧
    ({ s with
       status := SignupStatus.confirmed, confirmedAt := some now,
       confirmationToken := none } ∈ (confirmHandler wls db slug t now wf af).1) ∧
    (∀ r ∈ (confirmHandler wls db slug t now wf af).1,
      r.waitlistId = wl.id → r.confirmationToken ≠ some t) ∧
    ((confirmHandler wls (confirmHandler wls db slug t now wf af).1 slug t now' wf'
        af').2.2 = .error .notFound) ∧
    (∀ (db₂ : List Signup) (s₂ : Signup), findSignupByToken db₂ wl.id t = some s₂ →
      (s₂.status = SignupStatus.confirmed ∨ s₂.status = SignupStatus.invited) →
      confirmHandler wls db₂ slug t now'' wf'' af'' =
        (db₂, [], .ok (match wl.redirectUrl with
          | some u => ConfirmResult.redirect u
          | none =>
            ConfirmResult.jsonOk ⟨str "Your email is already confirmed.",
              s₂.position⟩))) := by
  have hsmem : s ∈ db := List.mem_of_find?_eq_some hf
  have hs1 : ¬ (s.status = SignupStatus.confirmed ∨ s.status = SignupStatus.invited) := by
    rw [hs]; simp
  have hdb : (confirmHandler wls db slug t now wf af).1 =
      db.map (fun r =>
        if r.id = s.id then
          { r with status := SignupStatus.confirmed, confirmedAt := some now,
                   confirmationToken := none }
        else r) := by
    cases hru : wl.redirectUrl <;>
      simp only [confirmHandler, hw, hf, hs1, if_false, hru]
  have htok : ∀ r ∈ (confirmHandler wls db slug t now wf af).1,
      r.waitlistId = wl.id → r.confirmationToken ≠ some t := by
    rw [hdb]
    intro r hr hwid heq
    rcases List.mem_map.mp hr with ⟨x, hx, hfx⟩
    by_cases hid : x.id = s.id
    · rw [← hfx] at heq
      simp [hid] at heq
    · rw [← hfx] at heq hwid
      simp only [hid, if_neg hid] at heq hwid
      exact hid (congrArg Signup.id (huniq x hx hwid heq) ▸ rfl)
  refine ⟨?_, ?_, htok, ?_, ?_⟩
  · cases hru : wl.redirectUrl <;>
      simp only [confirmHandler, hw, hf, hs1, if_false, hru]
  · rw [hdb]
    exact List.mem_map.mpr ⟨s, hsmem, by simp⟩
  · have hnone : findSignupByToken (confirmHandler wls db slug t now wf af).1 wl.id t
        = none := by
      apply List.find?_eq_none.mpr
      intro x hx
      simp only [decide_eq_true_eq, not_and]
      intro hwid heq
      exact htok x hx hwid heq
    revert hnone
    generalize (confirmHandler wls db slug t now wf af).1 = db1
    intro hnone
    simp only [confirmHandler, hw, hnone]
  · intro db₂ s₂ hf₂ hst₂
    cases hru : wl.redirectUrl <;>
      simp only [confirmHandler, hw, hf₂, hst₂, if_true, hru]

/-- Witness for `c1_confirm_token_lifecycle` on a one-row table: the pending
signup with token `"t"` is confirmed (status/`confirmedAt`/token updated), a
second confirm with `"t"` 404s, and an already-confirmed lookup is
idempotent. -/
theorem c1_confirm_token_lifecycle_witness :
    (confirmHandler
      [⟨str "w1", str "Beta", str "beta", true, none, [], []⟩]
      [⟨str "s1", str "w1", str "a@x.com", 1, SignupStatus.pending, [], none, none,
        none, some (str "t"), none, 0⟩]
      (str "beta") (str "t") 9 false false).2.2 =
      .ok (ConfirmResult.jsonOk ⟨str "Your email has been confirmed!", 1⟩) ∧
    (confirmHandler
      [⟨str "w1", str "Beta", str "beta", true, none, [], []⟩]
      (confirmHandler
        [⟨str "w1", str "Beta", str "beta", true, none, [], []⟩]
        [⟨str "s1", str "w1", str "a@x.com", 1, SignupStatus.pending, [], none, none,
          none, some (str "t"), none, 0⟩]
        (str "beta") (str "t") 9 false false).1
      (str "beta") (str "t") 11 false false).2.2 = .error .notFound := by
  have h := c1_confirm_token_lifecycle
    [⟨str "w1", str "Beta", str "beta", true, none, [], []⟩]
    [⟨str "s1", str "w1", str "a@x.com", 1, SignupStatus.pending, [], none, none,
      none, some (str "t"), none, 0⟩]
    (str "beta") (str "t")
    ⟨str "w1", str "Beta", str "beta", true, none, [], []⟩
    ⟨str "s1", str "w1", str "a@x.com", 1, SignupStatus.pending, [], none, none,
      none, some (str "t"), none, 0⟩
    9 11 13 false false false false false false
    (by rfl) (by rfl) (by rfl) (by rfl)
    (by intro r hr _ _; exact List.mem_singleton.mp hr)
  exact ⟨h.1, h.2.2.2.1⟩

/-- C2: on a waitlist with `doubleOptIn = false`, a first signup for an email
with no existing row succeeds with `requiresConfirmation = false` and position
`1 + max(existing positions)` (`1` on an empty waitlist), and a second signup
for the same `(waitlist, email)` fails with `ALREADY_SIGNED_UP`. -/
theorem c2_direct_signup
    (wls : List Waitlist) (db : List Signup) (slug : Str) (req req2 : SignupReq)
    (env env2 : SignupEnv) (tok tok2 newId newId2 : Str) (ip ip2 ua ua2 : Option Str)
    (now now2 : Nat) (wl : Waitlist) (cd cd2 : List (Str × Str))
    (hw : findWaitlistBySlug wls slug = some wl)
    (hopt : wl.doubleOptIn = false)
    (hv : isValidEmail (normalizeEmail req.email) = true)
    (hcf : validateCustomFields wl.customFields req.customData [] = .ok cd)
    (hnew : findSignupByEmail db wl.id (normalizeEmail req.email) = none)
    (hsame : normalizeEmail req2.email = normalizeEmail req.email)
    (hcf2 : validateCustomFields wl.customFields req2.customData [] = .ok cd2) :
    (signupHandler wls db slug req env tok newId ip ua now).2.2 =
      .ok ⟨str "You're on the list!", maxPosition db wl.id + 1, false,
        wl.redirectUrl⟩ ∧
    (db.filter (fun s => decide (s.waitlistId = wl.id)) = [] →
      maxPosition db wl.id + 1 = 1) ∧
    (signupHandler wls (signupHandler wls db slug req env tok newId ip ua now).1
      slug req2 env2 tok2 newId2 ip2 ua2 now2).2.2 = .error .alreadySignedUp := by
  have hA : (signupHandler wls db slug req env tok newId ip ua now).1 =
      db ++ [{ id := newId, waitlistId := wl.id, email := normalizeEmail req.email,
               position := maxPosition db wl.id + 1,
               status := SignupStatus.confirmed, customData := cd,
               referralSource := req.referralSource, ipAddress := ip, userAgent := ua,
               confirmationToken := none, confirmedAt := some now,
               createdAt := now }] := by
    simp [signupHandler, hw, hv, hcf, hnew, hopt]
  have hres : (signupHandler wls db slug req env tok newId ip ua now).2.2 =
      .ok ⟨str "You're on the list!", maxPosition db wl.id + 1, false,
        wl.redirectUrl⟩ := by
    simp [signupHandler, hw, hv, hcf, hnew, hopt]
  refine ⟨hres, ?_, ?_⟩
  · intro hflt
    simp [maxPosition, hflt]
  · have hfind2 : findSignupByEmail
        (db ++ [{ id := newId, waitlistId := wl.id,
                  email := normalizeEmail req.email,
                  position := maxPosition db wl.id + 1,
                  status := SignupStatus.confirmed, customData := cd,
                  referralSource := req.referralSource, ipAddress := ip,
                  userAgent := ua, confirmationToken := none,
                  confirmedAt := some now, createdAt := now }])
        wl.id (normalizeEmail req2.email) =
        some { id := newId, waitlistId := wl.id, email := normalizeEmail req.email,
               position := maxPosition db wl.id + 1,
               status := SignupStatus.confirmed, customData := cd,
               referralSource := req.referralSource, ipAddress := ip, userAgent := ua,
               confirmationToken := none, confirmedAt := some now,
               createdAt := now } := by
      unfold findSignupByEmail at hnew ⊢
      rw [hsame, find?_append_of_none _ _ _ hnew]
      simp [List.find?]
    rw [hA]
    have hv2 : isValidEmail (normalizeEmail req2.email) = true := by rw [hsame]; exact hv
    simp [signupHandler, hw, hv2, hcf2, hfind2]

/-- Witness for `c2_direct_signup`: a concrete empty waitlist; first signup
gets position 1, `requiresConfirmation = false`; the repeat attempt fails with
`ALREADY_SIGNED_UP`. -/
theorem c2_direct_signup_witness :
    (signupHandler
      [⟨str "w1", str "Beta", str "beta", false, none, [], []⟩] []
      (str "beta") ⟨str "A@Example.com ", [], none⟩ ⟨true, false, false, false⟩
      (str "tk") (str "s1") none none 5).2.2 =
      .ok ⟨str "You're on the list!", 1, false, none⟩ ∧
    (signupHandler
      [⟨str "w1", str "Beta", str "beta", false, none, [], []⟩]
      (signupHandler
        [⟨str "w1", str "Beta", str "beta", false, none, [], []⟩] []
        (str "beta") ⟨str "A@Example.com ", [], none⟩ ⟨true, false, false, false⟩
        (str "tk") (str "s1") none none 5).1
      (str "beta") ⟨str "a@example.com", [], none⟩ ⟨true, false, false, false⟩
      (str "tk2") (str "s2") none none 6).2.2 = .error .alreadySignedUp := by
  have h := c2_direct_signup
    [⟨str "w1", str "Beta", str "beta", false, none, [], []⟩] []
    (str "beta") ⟨str "A@Example.com ", [], none⟩ ⟨str "a@example.com", [], none⟩
    ⟨true, false, false, false⟩ ⟨true, false, false, false⟩
    (str "tk") (str "tk2") (str "s1") (str "s2") none none none none 5 6
    ⟨str "w1", str "Beta", str "beta", false, none, [], []⟩ [] []
    (by rfl) (by rfl) (by decide) (by rfl) (by rfl) (by decide) (by rfl)
  exact ⟨by rw [h.1]; rfl, h.2.2⟩

/-- C4: on the double-opt-in insert path the required confirmation-email send
is not caught — its failure surfaces as the request's error while the freshly
inserted pending row stays committed; on the direct-confirm path the
welcome/admin-notification sends are wrapped in try/catch — their failure is
only logged and the request still succeeds. -/
theorem c4_email_error_policy
    (wls : List Waitlist) (db : List Signup) (slug : Str) (req : SignupReq)
    (env : SignupEnv) (tok newId : Str) (ip ua : Option Str) (now : Nat)
    (wl : Waitlist) (cd : List (Str × Str))
    (hw : findWaitlistBySlug wls slug = some wl)
    (hv : isValidEmail (normalizeEmail req.email) = true)
    (hcf : validateCustomFields wl.customFields req.customData [] = .ok cd)
    (hnew : findSignupByEmail db wl.id (normalizeEmail req.email) = none) :
    (wl.doubleOptIn = true → env.emailConfigured = true →
      env.confirmEmailFails = true →
      (signupHandler wls db slug req env tok newId ip ua now).2.2 =
        .error .emailError ∧
      (signupHandler wls db slug req env tok newId ip ua now).1 =
        db ++ [{ id := newId, waitlistId := wl.id,
                 email := normalizeEmail req.email,
                 position := maxPosition db wl.id + 1,
                 status := SignupStatus.pending, customData := cd,
                 referralSource := req.referralSource, ipAddress := ip,
                 userAgent := ua, confirmationToken := some tok,
                 confirmedAt := none, createdAt := now }]) ∧
    (wl.doubleOptIn = false →
      (signupHandler wls db slug req env tok newId ip ua now).2.2 =
        .ok ⟨str "You're on the list!", maxPosition db wl.id + 1, false,
          wl.redirectUrl⟩ ∧
      (env.emailConfigured = true →
        (env.welcomeEmailFails = true ∨ env.adminEmailFails = true) →
        str "[Signup] Failed to send welcome/notification email" ∈
          (signupHandler wls db slug req env tok newId ip ua now).2.1)) := by
  constructor
  · intro hdo hec hfail
    constructor
    · simp [signupHandler, hw, hv, hcf, hnew, hdo, hec, hfail, sendRes]
    · simp [signupHandler, hw, hv, hcf, hnew, hdo, hec, hfail, sendRes]
  · intro hdo
    constructor
    · simp [signupHandler, hw, hv, hcf, hnew, hdo]
    · intro hec hfails
      cases hwf : env.welcomeEmailFails <;> cases haf : env.adminEmailFails
      · rw [hwf, haf] at hfails
        simp at hfails
      all_goals
        simp [signupHandler, hw, hv, hcf, hnew, hdo, hec, hwf, haf, sendRes, bind,
          Except.bind]

/-- Witness for `c4_email_error_policy`: a double-opt-in waitlist whose
confirmation send fails yields `EMAIL_ERROR` with the pending row committed;
a direct waitlist whose welcome send fails still succeeds and logs. -/
theorem c4_email_error_policy_witness :
    ((signupHandler
      [⟨str "w1", str "Beta", str "beta", true, none, [], []⟩] []
      (str "beta") ⟨str "a@example.com", [], none⟩ ⟨true, true, false, false⟩
      (str "tk") (str "s1") none none 5).2.2 = .error .emailError ∧
     (signupHandler
      [⟨str "w1", str "Beta", str "beta", true, none, [], []⟩] []
      (str "beta") ⟨str "a@example.com", [], none⟩ ⟨true, true, false, false⟩
      (str "tk") (str "s1") none none 5).1 =
      [⟨str "s1", str "w1", str "a@example.com", 1, SignupStatus.pending, [], none,
        none, none, some (str "tk"), none, 5⟩]) ∧
    ((signupHandler
      [⟨str "w2", str "Gamma", str "gamma", false, none, [], []⟩] []
      (str "gamma") ⟨str "a@example.com", [], none⟩ ⟨true, false, true, false⟩
      (str "tk") (str "s1") none none 5).2.2 =
      .ok ⟨str "You're on the list!", 1, false, none⟩ ∧
     str "[Signup] Failed to send welcome/notification email" ∈
      (signupHandler
        [⟨str "w2", str "Gamma", str "gamma", false, none, [], []⟩] []
        (str "gamma") ⟨str "a@example.com", [], none⟩ ⟨true, false, true, false⟩
        (str "tk") (str "s1") none none 5).2.1) := by
  constructor
  · have h := (c4_email_error_policy
      [⟨str "w1", str "Beta", str "beta", true, none, [], []⟩] []
      (str "beta") ⟨str "a@example.com", [], none⟩ ⟨true, true, false, false⟩
      (str "tk") (str "s1") none none 5
      ⟨str "w1", str "Beta", str "beta", true, none, [], []⟩ []
      (by rfl) (by decide) (by rfl) (by rfl)).1 rfl rfl rfl
    exact ⟨h.1, by rw [h.2]; rfl⟩
  · have h := (c4_email_error_policy
      [⟨str "w2", str "Gamma", str "gamma", false, none, [], []⟩] []
      (str "gamma") ⟨str "a@example.com", [], none⟩ ⟨true, false, true, false⟩
      (str "tk") (str "s1") none none 5
      ⟨str "w2", str "Gamma", str "gamma", false, none, [], []⟩ []
      (by rfl) (by decide) (by rfl) (by rfl)).2 rfl
    exact ⟨by rw [h.1]; rfl, h.2 rfl (Or.inl rfl)⟩

/-- `expectedOutcomes` has one outcome per request. -/
theorem expectedOutcomes_length (maxReq c R : Nat) (ts : List Nat) :
    (expectedOutcomes maxReq c R ts).length = ts.length := by
  induction ts generalizing c with
  | nil => rfl
  | cons t ts ih => simp [expectedOutcomes, ih]

/-- The i-th entry of `expectedOutcomes`. -/
theorem expectedOutcomes_get (maxReq R : Nat) (ts : List Nat) (c i : Nat)
    (hi : i < ts.length) (hi' : i < (expectedOutcomes maxReq c R ts).length) :
    (expectedOutcomes maxReq c R ts).get ⟨i, hi'⟩ =
      (if maxReq < c + i + 1 then
        RateOutcome.limited maxReq (maxReq - (c + i + 1)) ((R + 999) / 1000)
          ((R - ts.get ⟨i, hi⟩ + 999) / 1000)
       else RateOutcome.allowed maxReq (maxReq - (c + i + 1)) ((R + 999) / 1000)) := by
  induction ts generalizing c i with
  | nil => exact absurd hi (by simp)
  | cons t ts ih =>
    cases i with
    | zero => simp [expectedOutcomes]
    | succ j =>
      have hj : j < ts.length := by simpa using hi
      have hj' : j < (expectedOutcomes maxReq (c + 1) R ts).length := by
        rw [expectedOutcomes_length]; exact hj
      have := ih (c + 1) j hj hj'
      simp only [expectedOutcomes, List.get_eq_getElem, List.getElem_cons_succ]
      rw [show (c + 1) + j + 1 = c + (j + 1) + 1 by omega] at this
      simp only [List.get_eq_getElem] at this
      exact this

/-- Requests arriving while a singleton window `(count=c, resetAt=R)` is live
(`¬ R < t` for each) just increment the count and produce the expected
outcome sequence. -/
theorem runRequests_within (W maxReq : Nat) (key : Str) (ts : List Nat) (c R : Nat)
    (hR : ∀ t ∈ ts, ¬ R < t) :
    runRequests W maxReq key ts [(key, ⟨c, R⟩)] =
      ([(key, ⟨c + ts.length, R⟩)], expectedOutcomes maxReq c R ts) := by
  revert hR
  induction ts generalizing c with
  | nil => intro _; simp [runRequests, expectedOutcomes]
  | cons t ts ih =>
    intro hR
    have ht : ¬ R < t := hR t (List.mem_cons_self t ts)
    have hstep : rateLimit W maxReq key t [(key, ⟨c, R⟩)] =
        ([(key, ⟨c + 1, R⟩)],
         if maxReq < c + 1 then
           RateOutcome.limited maxReq (maxReq - (c + 1)) ((R + 999) / 1000)
             ((R - t + 999) / 1000)
         else RateOutcome.allowed maxReq (maxReq - (c + 1)) ((R + 999) / 1000)) := by
      by_cases hm : maxReq < c + 1 <;>
        simp [rateLimit, cleanupExpiredIfNeeded, storeGet, storeSet,
          rateLimitFinish, ht, hm]
    have hrest := ih (c + 1) (fun t' ht' => hR t' (List.mem_cons_of_mem _ ht'))
    simp only [runRequests, hstep, hrest, expectedOutcomes, List.length_cons]
    rw [show c + 1 + ts.length = c + (ts.length + 1) by omega]

/-- C7: for the signup policy (10 per IP per 60-minute window), 11 requests
within one window produce 10 `allowed` outcomes followed by a `limited`
outcome whose `Retry-After` is the remaining window in seconds (ceiling); a
request after the window's `resetAt` starts a fresh window with count 1 and is
allowed. -/
theorem c7_signup_rate_limit
    (ip : Str) (t0 tnext : Nat) (ts : List Nat)
    (hlen : ts.length = 10)
    (hwin : ∀ t ∈ ts, t ≤ t0 + 3600000)
    (hexp : t0 + 3600000 < tnext) :
    (∀ (t : Nat) (st : RateStore), signupRateLimit (some ip) t st =
      rateLimit 3600000 10 (str "signup:" ++ ip) t st) ∧
    (runRequests 3600000 10 (str "signup:" ++ ip) (t0 :: ts) []).2.length = 11 ∧
    (∀ i (hi : i < 10)
      (hi' : i < (runRequests 3600000 10 (str "signup:" ++ ip) (t0 :: ts) []).2.length),
      (runRequests 3600000 10 (str "signup:" ++ ip) (t0 :: ts) []).2.get ⟨i, hi'⟩ =
        RateOutcome.allowed 10 (9 - i) ((t0 + 3600000 + 999) / 1000)) ∧
    (∀ (h9 : 9 < ts.length)
      (hi' : 10 < (runRequests 3600000 10 (str "signup:" ++ ip) (t0 :: ts) []).2.length),
      (runRequests 3600000 10 (str "signup:" ++ ip) (t0 :: ts) []).2.get ⟨10, hi'⟩ =
        RateOutcome.limited 10 0 ((t0 + 3600000 + 999) / 1000)
          ((t0 + 3600000 - ts.get ⟨9, h9⟩ + 999) / 1000)) ∧
    rateLimit 3600000 10 (str "signup:" ++ ip) tnext
        (runRequests 3600000 10 (str "signup:" ++ ip) (t0 :: ts) []).1 =
      ([(str "signup:" ++ ip, ⟨1, tnext + 3600000⟩)],
       RateOutcome.allowed 10 9 ((tnext + 3600000 + 999) / 1000)) := by
  have h0 : rateLimit 3600000 10 (str "signup:" ++ ip) t0 [] =
      ([(str "signup:" ++ ip, ⟨1, t0 + 3600000⟩)],
       RateOutcome.allowed 10 9 ((t0 + 3600000 + 999) / 1000)) := by
    simp [rateLimit, cleanupExpiredIfNeeded, storeGet, storeSet, rateLimitFinish]
  have hwithin := runRequests_within 3600000 10 (str "signup:" ++ ip) ts 1
    (t0 + 3600000) (fun t ht => not_lt.mpr (hwin t ht))
  have hrun : runRequests 3600000 10 (str "signup:" ++ ip) (t0 :: ts) [] =
      ([(str "signup:" ++ ip, ⟨11, t0 + 3600000⟩)],
       RateOutcome.allowed 10 9 ((t0 + 3600000 + 999) / 1000) ::
         expectedOutcomes 10 1 (t0 + 3600000) ts) := by
    simp only [runRequests, h0, hwithin, hlen]
  refine ⟨fun t st => rfl, ?_, ?_, ?_, ?_⟩
  · rw [hrun]
    simp [expectedOutcomes_length, hlen]
  · intro i hi hi'
    simp only [List.get_eq_getElem] at hi' ⊢
    simp only [hrun] at hi' ⊢
    cases i with
    | zero => simp
    | succ j =>
      have hj : j < ts.length := by omega
      have hj' : j < (expectedOutcomes 10 1 (t0 + 3600000) ts).length := by
        rw [expectedOutcomes_length]; exact hj
      simp only [List.getElem_cons_succ]
      have := expectedOutcomes_get 10 (t0 + 3600000) ts 1 j hj hj'
      simp only [List.get_eq_getElem] at this
      rw [this]
      have hcond : ¬ (10 < 1 + j + 1) := by omega
      rw [if_neg hcond]
      congr 1
      omega
  · intro h9 hi'
    simp only [List.get_eq_getElem] at hi' ⊢
    simp only [hrun] at hi' ⊢
    have hj' : 9 < (expectedOutcomes 10 1 (t0 + 3600000) ts).length := by
      rw [expectedOutcomes_length]; exact h9
    simp only [List.getElem_cons_succ]
    have := expectedOutcomes_get 10 (t0 + 3600000) ts 1 9 h9 hj'
    simp only [List.get_eq_getElem] at this
    rw [this]
    rw [if_pos (by omega : 10 < 1 + 9 + 1)]
  · rw [hrun]
    have hlt : (⟨11, t0 + 3600000⟩ : RateRecord).resetAt < tnext := hexp
    simp [rateLimit, cleanupExpiredIfNeeded, storeGet, storeSet, rateLimitFinish,
      hlt, hexp]

/-- Witness for `c7_signup_rate_limit`: eleven instantaneous requests from one
IP: outcome list has length 11 and the request at `t = 3600001` (after the
window) opens a fresh window with count 1. -/
theorem c7_signup_rate_limit_witness :
    (runRequests 3600000 10 (str "signup:" ++ str "1.2.3.4")
      (0 :: [0, 0, 0, 0, 0, 0, 0, 0, 0, 0]) []).2.length = 11 ∧
    rateLimit 3600000 10 (str "signup:" ++ str "1.2.3.4") 3600001
        (runRequests 3600000 10 (str "signup:" ++ str "1.2.3.4")
          (0 :: [0, 0, 0, 0, 0, 0, 0, 0, 0, 0]) []).1 =
      ([(str "signup:" ++ str "1.2.3.4", ⟨1, 3600001 + 3600000⟩)],
       RateOutcome.allowed 10 9 ((3600001 + 3600000 + 999) / 1000)) := by
  have h := c7_signup_rate_limit (str "1.2.3.4") 0 3600001
    [0, 0, 0, 0, 0, 0, 0, 0, 0, 0] (by rfl) (by decide) (by decide)
  exact ⟨h.2.1, h.2.2.2.2⟩

/-- `find?` over a `filterMap` whose produced rows carry their key: looking up
`d` among the rows built from a duplicate-free day list containing `d` yields
exactly `mk d`. -/
theorem findDay_filterMap (days : List Nat) (mk : Nat → Option DayRow)
    (hmk : ∀ x g, mk x = some g → g.date = x)
    (d : Nat) (hd : d ∈ days) (hnd : days.Nodup) :
    findDay (days.filterMap mk) d = mk d := by
  induction days with
  | nil => cases hd
  | cons x rest ih =>
    have hxr : x ∉ rest := (List.nodup_cons.mp hnd).1
    have hnd' : rest.Nodup := (List.nodup_cons.mp hnd).2
    by_cases hx : x = d
    · subst hx
      cases hmkd : mk x with
      | some g =>
        have hdate : g.date = x := hmk x g hmkd
        rw [List.filterMap_cons_some hmkd]
        unfold findDay
        rw [List.find?_cons_of_pos _ (by simp [hdate])]
      | none =>
        rw [List.filterMap_cons_none hmkd]
        apply List.find?_eq_none.mpr
        intro g hg
        rcases List.mem_filterMap.mp hg with ⟨y, hy, hmy⟩
        have hgy : g.date = y := hmk y g hmy
        simp only [decide_eq_true_eq]
        intro habs
        have hyx : y = x := by rw [← hgy, habs]
        exact hxr (hyx ▸ hy)
    · have hd' : d ∈ rest := by
        rcases List.mem_cons.mp hd with h | h
        · exact absurd h.symm hx
        · exact h
      cases hmx : mk x with
      | some g =>
        have hgx : g.date = x := hmk x g hmx
        rw [List.filterMap_cons_some hmx]
        unfold findDay
        rw [List.find?_cons_of_neg _ (by simp [hgx, hx])]
        exact ih hd' hnd'
      | none =>
        rw [List.filterMap_cons_none hmx]
        exact ih hd' hnd'

/-- Looking a window day `d` up in the grouped query result yields its group
(`count`/`confirmed` over the signups of day `d`) or nothing when the day had
no signups. -/
theorem findDay_dailyGroups (db : List Signup) (wid : Str) (fromD toD d : Nat)
    (h1 : fromD ≤ d) (h2 : d ≤ toD) :
    findDay (dailyGroups db wid fromD toD) d =
      (if (signupsOnDay db wid d).isEmpty then none
       else some ⟨d, (signupsOnDay db wid d).length,
         (confirmedOnDay db wid d).length⟩) := by
  have hfil : db.filter (fun s => decide (s.waitlistId = wid ∧
      fromD * 86400 ≤ s.createdAt ∧ s.createdAt ≤ toD * 86400 + 86399 ∧
      dayOf s.createdAt = d)) = signupsOnDay db wid d := by
    unfold signupsOnDay
    apply List.filter_congr
    intro s _
    simp only [decide_eq_decide, dayOf]
    constructor
    · rintro ⟨hw, _, _, hday⟩
      exact ⟨hw, hday⟩
    · rintro ⟨hw, hday⟩
      refine ⟨hw, ?_, ?_, hday⟩ <;> omega
  unfold dailyGroups
  rw [findDay_filterMap _ _ ?_ d ?_ ?_]
  · dsimp only
    rw [hfil]
    rfl
  · intro x g hg
    dsimp only at hg
    split at hg
    · cases hg
    · cases hg
      rfl
  · exact List.mem_map.mpr ⟨d - fromD, List.mem_range.mpr (by omega), by omega⟩
  · exact List.Nodup.map (fun a b hab => by omega) (List.nodup_range _)

/-- C8: the daily series returned for a window `[fromD, toD]` has exactly one
entry per calendar day of the window, in ascending date order, whose `count`
and `confirmed` are the day's signup counts — in particular `0`/`0` for days
with no signups. -/
theorem c8_daily_series_gap_fill (db : List Signup) (wid : Str) (fromD toD : Nat)
    (h : fromD ≤ toD) :
    (fillDailySignups (dailyGroups db wid fromD toD) fromD toD).length =
      toD + 1 - fromD ∧
    ∀ i (hi : i <
        (fillDailySignups (dailyGroups db wid fromD toD) fromD toD).length),
      ((fillDailySignups (dailyGroups db wid fromD toD) fromD toD).get
        ⟨i, hi⟩).date = fromD + i ∧
      ((fillDailySignups (dailyGroups db wid fromD toD) fromD toD).get
        ⟨i, hi⟩).count = (signupsOnDay db wid (fromD + i)).length ∧
      ((fillDailySignups (dailyGroups db wid fromD toD) fromD toD).get
        ⟨i, hi⟩).confirmed = (confirmedOnDay db wid (fromD + i)).length := by
  constructor
  · simp [fillDailySignups]
  · intro i hi
    have hiR : i < toD + 1 - fromD := by
      simpa [fillDailySignups] using hi
    have hget : (fillDailySignups (dailyGroups db wid fromD toD) fromD toD).get
        ⟨i, hi⟩ =
        (match findDay (dailyGroups db wid fromD toD) (fromD + i) with
        | some g => ⟨fromD + i, g.count, g.confirmed⟩
        | none => ⟨fromD + i, 0, 0⟩) := by
      simp [fillDailySignups, List.get_eq_getElem]
    rw [hget, findDay_dailyGroups db wid fromD toD (fromD + i) (by omega) (by omega)]
    by_cases he : (signupsOnDay db wid (fromD + i)).isEmpty
    · rw [if_pos he]
      have hlen0 : (signupsOnDay db wid (fromD + i)).length = 0 := by
        rw [List.isEmpty_iff] at he
        simp [he]
      have hconf0 : (confirmedOnDay db wid (fromD + i)).length = 0 := by
        rw [List.isEmpty_iff] at he
        simp [confirmedOnDay, he]
      exact ⟨rfl, hlen0.symm, hconf0.symm⟩
    · rw [if_neg he]
      exact ⟨rfl, rfl, rfl⟩

/-- Witness for `c8_daily_series_gap_fill`: the spec's example — a 10-day
window with signups only on day 3 and day 7 yields exactly 10 entries, 8 of
which are all-zero. -/
theorem c8_daily_series_gap_fill_witness :
    (fillDailySignups
      (dailyGroups
        [⟨str "sA", str "w1", str "a@x.com", 1, SignupStatus.confirmed, [], none,
          none, none, none, some 1, 3 * 86400 + 5⟩,
         ⟨str "sB", str "w1", str "b@x.com", 2, SignupStatus.pending, [], none,
          none, none, some (str "t"), none, 7 * 86400⟩]
        (str "w1") 0 9) 0 9).length = 10 ∧
    ((fillDailySignups
      (dailyGroups
        [⟨str "sA", str "w1", str "a@x.com", 1, SignupStatus.confirmed, [], none,
          none, none, none, some 1, 3 * 86400 + 5⟩,
         ⟨str "sB", str "w1", str "b@x.com", 2, SignupStatus.pending, [], none,
          none, none, some (str "t"), none, 7 * 86400⟩]
        (str "w1") 0 9) 0 9).filter
      (fun e => decide (e.count = 0 ∧ e.confirmed = 0))).length = 8 := by
  have h := c8_daily_series_gap_fill
    [⟨str "sA", str "w1", str "a@x.com", 1, SignupStatus.confirmed, [], none,
      none, none, none, some 1, 3 * 86400 + 5⟩,
     ⟨str "sB", str "w1", str "b@x.com", 2, SignupStatus.pending, [], none,
      none, none, some (str "t"), none, 7 * 86400⟩]
    (str "w1") 0 9 (by decide)
  exact ⟨by simpa using h.1, by decide⟩

/-- Parsing a quoted region that was produced by quote-doubling recovers the
original cell and leaves the remainder (which must start at a separator or be
empty) untouched. -/
theorem parseQuoted_round (s : Str) : ∀ (acc rest : Str), sepStart rest →
    parseQuoted (escapeQuotes s ++ '"' :: rest) acc = (acc ++ s, rest) := by
  induction s with
  | nil =>
    intro acc rest hrest
    cases rest with
    | nil => simp [escapeQuotes, parseQuoted]
    | cons c r =>
      have hc : c = ',' ∨ c = '\n' := hrest
      have hcq : ¬ (c = '"') := by rcases hc with rfl | rfl <;> decide
      simp [escapeQuotes, parseQuoted, hcq]
  | cons c cs ih =>
    intro acc rest hrest
    by_cases hc : c = '"'
    · subst hc
      have h1 : escapeQuotes ('"' :: cs) ++ '"' :: rest =
          '"' :: '"' :: (escapeQuotes cs ++ '"' :: rest) := by
        simp [escapeQuotes]
      rw [h1]
      have h2 : parseQuoted ('"' :: '"' :: (escapeQuotes cs ++ '"' :: rest)) acc =
          parseQuoted (escapeQuotes cs ++ '"' :: rest) (acc ++ ['"']) := by
        simp [parseQuoted]
      rw [h2, ih (acc ++ ['"']) rest hrest]
      simp
    · have h1 : escapeQuotes (c :: cs) ++ '"' :: rest =
          c :: (escapeQuotes cs ++ '"' :: rest) := by
        simp [escapeQuotes, hc]
      rw [h1]
      have h2 : parseQuoted (c :: (escapeQuotes cs ++ '"' :: rest)) acc =
          parseQuoted (escapeQuotes cs ++ '"' :: rest) (acc ++ [c]) := by
        rw [parseQuoted.eq_def]
        simp [hc]
      rw [h2, ih (acc ++ [c]) rest hrest]
      simp

/-- An unquoted run of separator-free characters parses to itself, stopping
at the separator (or end) that follows. -/
theorem parseUnquoted_append_sep (l : Str) (hl : ∀ c ∈ l, ¬(c = ',' ∨ c = '\n')) :
    ∀ rest : Str, sepStart rest → parseUnquoted (l ++ rest) = (l, rest) := by
  induction l with
  | nil =>
    intro rest hrest
    cases rest with
    | nil => simp [parseUnquoted]
    | cons c r =>
      have hc : c = ',' ∨ c = '\n' := hrest
      simp [parseUnquoted, hc]
  | cons c cs ih =>
    intro rest hrest
    have hc : ¬(c = ',' ∨ c = '\n') := hl c (by simp)
    have ihr := ih (fun x hx => hl x (by simp [hx])) rest hrest
    simp [parseUnquoted, hc, ihr]

/-- A quoted cell followed by a separator (or end of input) parses back to the
cell. -/
theorem parseField_quoted (s rest : Str) (hrest : sepStart rest) :
    parseField (quoteCell s ++ rest) = (s, rest) := by
  have h1 : quoteCell s ++ rest = '"' :: (escapeQuotes s ++ '"' :: rest) := by
    simp [quoteCell]
  have h2 := parseQuoted_round s [] rest hrest
  have h3 := parseUnquoted_append_sep [] (by simp) rest hrest
  rw [h1]
  simp only [parseField, if_pos rfl]
  simp only [List.nil_append] at h2 h3
  rw [h2, h3]
  simp

/-- A field not starting with a quote is an unquoted field. -/
theorem parseField_noquote (c : Char) (r : Str) (hc : c ≠ '"') :
    parseField (c :: r) = parseUnquoted (c :: r) := by
  simp [parseField, hc]

/-- A quote-free, separator-free run followed by a separator (or end of
input) parses as one unquoted field. -/
theorem parseField_unquoted_run (a rest : Str)
    (hano : ∀ c ∈ a, ¬(c = ',' ∨ c = '\n'))
    (hanq : ∀ c ∈ a, c ≠ '"') (hrest : sepStart rest) :
    parseField (a ++ rest) = (a, rest) := by
  cases a with
  | nil =>
    cases rest with
    | nil => rfl
    | cons c r' =>
      have hsep : c = ',' ∨ c = '\n' := hrest
      have hc : c ≠ '"' := by rcases hsep with rfl | rfl <;> decide
      rw [List.nil_append, parseField_noquote c r' hc]
      exact parseUnquoted_append_sep [] (by simp) (c :: r') hrest
  | cons x xs =>
    have hx : x ≠ '"' := hanq x (by simp)
    rw [List.cons_append, parseField_noquote x _ hx, ← List.cons_append]
    exact parseUnquoted_append_sep (x :: xs) hano rest hrest

/-- A row line is at least as long as its cell count. -/
theorem rowLine_cells_le (cells : List Str) :
    cells.length ≤ (rowLine cells).length := by
  induction cells with
  | nil => simp [rowLine, joinSep]
  | cons c cs ih =>
    cases cs with
    | nil => simp [rowLine, joinSep, quoteCell]
    | cons c2 cs2 =>
      have h1 : rowLine (c :: c2 :: cs2) =
          quoteCell c ++ ',' :: rowLine (c2 :: cs2) := by
        simp [rowLine, joinSep]
      have hq : 2 ≤ (quoteCell c).length := by simp [quoteCell]
      rw [h1]
      simp only [List.length_append, List.length_cons]
      simp only [List.length_cons] at ih
      omega

/-- Parsing a serialized row at end of input recovers the cells. -/
theorem parseRowAux_last (cells : List Str) (hne : cells ≠ []) :
    ∀ fuel, cells.length ≤ fuel →
    parseRowAux fuel (rowLine cells) = (cells, [], false) := by
  induction cells with
  | nil => exact absurd rfl hne
  | cons c cs ih =>
    intro fuel hf
    cases fuel with
    | zero => simp at hf
    | succ k =>
      cases cs with
      | nil =>
        have h2 : parseField (quoteCell c) = (c, []) := by
          have h := parseField_quoted c [] trivial
          simpa using h
        have h1 : rowLine [c] = quoteCell c := by simp [rowLine, joinSep]
        rw [h1]
        simp [parseRowAux, h2]
      | cons c2 cs2 =>
        have h1 : rowLine (c :: c2 :: cs2) =
            quoteCell c ++ ',' :: rowLine (c2 :: cs2) := by
          simp [rowLine, joinSep]
        have h2 : parseField (quoteCell c ++ ',' :: rowLine (c2 :: cs2)) =
            (c, ',' :: rowLine (c2 :: cs2)) :=
          parseField_quoted c _ (Or.inl rfl)
        have h3 := ih (by simp) k (by
          simp only [List.length_cons] at hf ⊢
          omega)
        rw [h1]
        simp [parseRowAux, h2, h3]

/-- Parsing a serialized row followed by a newline recovers the cells and
consumes the newline. -/
theorem parseRowAux_mid (cells : List Str) (hne : cells ≠ []) :
    ∀ fuel, cells.length ≤ fuel → ∀ rest : Str,
    parseRowAux fuel (rowLine cells ++ '\n' :: rest) = (cells, rest, true) := by
  induction cells with
  | nil => exact absurd rfl hne
  | cons c cs ih =>
    intro fuel hf rest
    cases fuel with
    | zero => simp at hf
    | succ k =>
      cases cs with
      | nil =>
        have h1 : rowLine [c] = quoteCell c := by simp [rowLine, joinSep]
        have h2 : parseField (quoteCell c ++ '\n' :: rest) = (c, '\n' :: rest) :=
          parseField_quoted c _ (Or.inr rfl)
        rw [h1]
        simp [parseRowAux, h2]
      | cons c2 cs2 =>
        have h1 : rowLine (c :: c2 :: cs2) ++ '\n' :: rest =
            quoteCell c ++ ',' :: (rowLine (c2 :: cs2) ++ '\n' :: rest) := by
          simp [rowLine, joinSep]
        have h2 : parseField
            (quoteCell c ++ ',' :: (rowLine (c2 :: cs2) ++ '\n' :: rest)) =
            (c, ',' :: (rowLine (c2 :: cs2) ++ '\n' :: rest)) :=
          parseField_quoted c _ (Or.inl rfl)
        have h3 := ih (by simp) k (by
          simp only [List.length_cons] at hf ⊢
          omega) rest
        rw [h1]
        simp [parseRowAux, h2, h3]

/-- The first element surviving `dropWhile` fails the predicate. -/
theorem dropWhile_head_false {α : Type} {p : α → Bool} :
    ∀ (l : List α) (x : α) (xs : List α), l.dropWhile p = x :: xs → p x = false := by
  intro l
  induction l with
  | nil =>
    intro x xs h
    simp [List.dropWhile] at h
  | cons y ys ih =>
    intro x xs h
    by_cases hy : p y
    · rw [List.dropWhile_cons_of_pos hy] at h
      exact ih x xs h
    · rw [List.dropWhile_cons_of_neg hy] at h
      cases h
      simpa using hy

/-- A line free of newlines and quotes (such as the unquoted header line)
parses as a single record — whatever its cells, the parser consumes exactly
the line and its terminating newline (or end of input). -/
theorem parseRowAux_skip : ∀ (fuel : Nat) (l : Str), l.length < fuel →
    (∀ c ∈ l, c ≠ '\n' ∧ c ≠ '"') →
    (∃ cells, parseRowAux fuel l = (cells, [], false)) ∧
    (∀ rest, ∃ cells, parseRowAux fuel (l ++ '\n' :: rest) = (cells, rest, true)) := by
  intro fuel
  induction fuel with
  | zero =>
    intro l hl
    omega
  | succ k ih =>
    intro l hl hno
    have hnq : ∀ c ∈ l, c ≠ '"' := fun c hc => (hno c hc).2
    set p : Char → Bool := fun c => decide (¬ c = ',') with hp
    have hab : l.takeWhile p ++ l.dropWhile p = l := List.takeWhile_append_dropWhile p l
    have hano : ∀ c ∈ l.takeWhile p, ¬(c = ',' ∨ c = '\n') := by
      intro c hc
      have h1 : p c := List.mem_takeWhile_imp hc
      have h2 : c ∈ l := List.takeWhile_subset p hc
      have h3 := (hno c h2).1
      simp only [hp, decide_eq_true_eq] at h1
      rintro (rfl | rfl)
      · exact h1 rfl
      · exact h3 rfl
    cases hbe : l.dropWhile p with
    | nil =>
      -- no comma in l: a single field
      have hleq : l.takeWhile p = l := by rw [hbe] at hab; simpa using hab
      constructor
      · refine ⟨[l], ?_⟩
        have hfield : parseField l = (l, []) := by
          have h := parseField_unquoted_run l [] (hleq ▸ hano) hnq trivial
          simpa using h
        simp [parseRowAux, hfield]
      · intro rest
        refine ⟨[l], ?_⟩
        have hfield : parseField (l ++ '\n' :: rest) = (l, '\n' :: rest) :=
          parseField_unquoted_run l ('\n' :: rest) (hleq ▸ hano) hnq (Or.inr rfl)
        simp [parseRowAux, hfield]
    | cons sep b' =>
      have hpsep : p sep = false := dropWhile_head_false l sep b' hbe
      have hsep : sep = ',' := by
        by_contra hne
        simp [hp, hne] at hpsep
      subst hsep
      obtain ⟨a, ha⟩ : ∃ a, l.takeWhile p = a := ⟨_, rfl⟩
      rw [ha] at hano hab
      have hsubl : ∀ c ∈ a, c ∈ l := fun c hc => by
        rw [← ha] at hc
        exact List.takeWhile_subset p hc
      have hanq : ∀ c ∈ a, c ≠ '"' := fun c hc => hnq c (hsubl c hc)
      have hl' : l = a ++ ',' :: b' := by rw [← hab, hbe]
      have hb'no : ∀ c ∈ b', c ≠ '\n' ∧ c ≠ '"' := by
        intro c hc
        exact hno c (by rw [hl']; simp [hc])
      have hb'len : b'.length < k := by
        have hlen : l.length = a.length + 1 + b'.length := by
          rw [hl']
          simp
          omega
        omega
      have hih := ih b' hb'len hb'no
      constructor
      · obtain ⟨cells', hcells'⟩ := hih.1
        refine ⟨a :: cells', ?_⟩
        have hfield : parseField l = (a, ',' :: b') := by
          rw [hl']
          exact parseField_unquoted_run a (',' :: b') hano hanq (Or.inl rfl)
        simp [parseRowAux, hfield, hcells']
      · intro rest
        obtain ⟨cells', hcells'⟩ := hih.2 rest
        refine ⟨a :: cells', ?_⟩
        have hfield : parseField (l ++ '\n' :: rest) =
            (a, ',' :: (b' ++ '\n' :: rest)) := by
          rw [hl']
          have h := parseField_unquoted_run a
            (',' :: (b' ++ '\n' :: rest)) hano hanq (Or.inl rfl)
          simpa using h
        simp [parseRowAux, hfield, hcells']

/-- A serialized nonempty row list is at least as long (in characters) as its
row count, and nonempty. -/
theorem joinSep_rowLines_length (rows : List (List Str)) (hne : rows ≠ [])
    (hcells : ∀ r ∈ rows, r ≠ []) :
    rows.length ≤ (joinSep ['\n'] (rows.map rowLine)).length ∧
    joinSep ['\n'] (rows.map rowLine) ≠ [] := by
  induction rows with
  | nil => exact absurd rfl hne
  | cons r rest ih =>
    have hr1 : 1 ≤ r.length := by
      cases hr : r with
      | nil => exact absurd hr (hcells r (by simp))
      | cons a as => simp
    have hrle := rowLine_cells_le r
    cases rest with
    | nil =>
      constructor
      · simpa [joinSep] using by omega
      · have : 1 ≤ (rowLine r).length := by omega
        simp only [List.map_cons, List.map_nil, joinSep]
        intro habs
        rw [habs] at this
        simp at this
    | cons r2 rest2 =>
      have hih := ih (by simp) (fun x hx => hcells x (by simp [hx]))
      have hform : joinSep ['\n'] ((r :: r2 :: rest2).map rowLine) =
          rowLine r ++ '\n' :: joinSep ['\n'] ((r2 :: rest2).map rowLine) := by
        simp [joinSep]
      rw [hform]
      constructor
      · simp only [List.length_cons, List.length_append]
        have := hih.1
        simp only [List.length_cons] at this ⊢
        omega
      · simp

/-- Parsing the serialized body (rows joined by `\n`) recovers the rows. -/
theorem parseCsvAux_rows : ∀ (fuel : Nat) (rows : List (List Str)), rows ≠ [] →
    (∀ r ∈ rows, r ≠ []) → rows.length ≤ fuel →
    parseCsvAux fuel (joinSep ['\n'] (rows.map rowLine)) = rows := by
  intro fuel
  induction fuel with
  | zero =>
    intro rows hne _ hf
    cases rows with
    | nil => exact absurd rfl hne
    | cons r rest => simp at hf
  | succ k ih =>
    intro rows hne hcells hf
    cases rows with
    | nil => exact absurd rfl hne
    | cons r rest =>
      have hrne : r ≠ [] := hcells r (by simp)
      have hrle := rowLine_cells_le r
      have hr1 : 1 ≤ r.length := by
        cases hr : r with
        | nil => exact absurd hr hrne
        | cons a as => simp
      cases rest with
      | nil =>
        have hform : joinSep ['\n'] ([r].map rowLine) = rowLine r := by
          simp [joinSep]
        have hnemp : (rowLine r).isEmpty = false := by
          cases hrl : rowLine r with
          | nil =>
            rw [hrl] at hrle
            simp only [List.length_nil] at hrle
            omega
          | cons a as => simp
        have hrow := parseRowAux_last r hrne ((rowLine r).length + 1) (by omega)
        rw [hform]
        simp [parseCsvAux, hnemp, hrow]
      | cons r2 rest2 =>
        have hform : joinSep ['\n'] ((r :: r2 :: rest2).map rowLine) =
            rowLine r ++ '\n' :: joinSep ['\n'] ((r2 :: rest2).map rowLine) := by
          simp [joinSep]
        set body := joinSep ['\n'] ((r2 :: rest2).map rowLine) with hbody
        have hnemp : (rowLine r ++ '\n' :: body).isEmpty = false := by
          cases hrl : rowLine r with
          | nil => simp
          | cons a as => simp
        have hrow := parseRowAux_mid r hrne ((rowLine r ++ '\n' :: body).length + 1)
          (by simp only [List.length_append, List.length_cons]; omega) body
        have hih := ih (r2 :: rest2) (by simp)
          (fun x hx => hcells x (by simp [hx]))
          (by simp only [List.length_cons] at hf ⊢; omega)
        rw [← hbody] at hih
        rw [hform]
        simp only [parseCsvAux, hnemp, Bool.false_eq_true, if_false]
        rw [hrow]
        simp [hih]

/-- Characters of a `join` come from the separator or one of the parts. -/
theorem mem_joinSep {c : Char} (sep : Str) :
    ∀ parts : List Str, c ∈ joinSep sep parts → c ∈ sep ∨ ∃ p ∈ parts, c ∈ p := by
  intro parts
  induction parts with
  | nil => intro hc; simp [joinSep] at hc
  | cons x rest ihp =>
    intro hc
    cases rest with
    | nil =>
      right
      exact ⟨x, by simp, by simpa [joinSep] using hc⟩
    | cons y rest2 =>
      simp only [joinSep, List.append_assoc, List.mem_append] at hc
      rcases hc with hx | hs | hr
      · exact Or.inr ⟨x, by simp, hx⟩
      · exact Or.inl hs
      · rcases ihp hr with h | ⟨q, hq, hcq⟩
        · exact Or.inl h
        · exact Or.inr ⟨q, by simp [List.mem_cons.mp hq], hcq⟩

/-- `join` on a singleton. -/
theorem joinSep_single (sep x : Str) : joinSep sep [x] = x := rfl

/-- `join` on two or more parts. -/
theorem joinSep_cons_cons (sep x y : Str) (rest : List Str) :
    joinSep sep (x :: y :: rest) = x ++ sep ++ joinSep sep (y :: rest) := rfl

/-- C9: parsing the CSV export back yields the header record followed by one
record per signup, each equal to the exported row — so in particular the
`(position, email, status)` triple of every parsed data record matches the
signup table, in column order position, email, status, referral_source, the
custom keys in schema order, confirmed_at, created_at.  The only proviso is
that the custom field keys (which the export writes unquoted into the header
line) contain no newline or double-quote character. -/
theorem c9_csv_round_trip (render : Nat → Str) (keys : List Str)
    (signups : List Signup)
    (hkeys : ∀ k ∈ keys, ∀ c ∈ k, c ≠ '\n' ∧ c ≠ '"') :
    (parseCsv (exportCsv render keys signups)).length = signups.length + 1 ∧
    (parseCsv (exportCsv render keys signups)).drop 1 =
      signups.map (signupRow render keys) ∧
    (∀ i (hi : i < signups.length)
      (hi' : i + 1 < (parseCsv (exportCsv render keys signups)).length),
      ((parseCsv (exportCsv render keys signups)).get ⟨i + 1, hi'⟩).take 3 =
        [natStr (signups.get ⟨i, hi⟩).position, (signups.get ⟨i, hi⟩).email,
         statusStr (signups.get ⟨i, hi⟩).status]) := by
  have hheader : ∀ c ∈ joinSep [','] ([str "position", str "email", str "status",
      str "referral_source"] ++ keys ++ [str "confirmed_at", str "created_at"]),
      c ≠ '\n' ∧ c ≠ '"' := by
    intro c hc
    rcases mem_joinSep [','] _ hc with hs | ⟨q, hq, hcq⟩
    · rcases List.mem_singleton.mp hs with rfl
      exact ⟨by decide, by decide⟩
    · rcases List.mem_append.mp hq with hq1 | hq3
      · rcases List.mem_append.mp hq1 with hq2 | hk
        · simp only [List.mem_cons, List.not_mem_nil, or_false] at hq2
          rcases hq2 with rfl | rfl | rfl | rfl
          · exact (by decide : ∀ x ∈ str "position", x ≠ '\n' ∧ x ≠ '"') c hcq
          · exact (by decide : ∀ x ∈ str "email", x ≠ '\n' ∧ x ≠ '"') c hcq
          · exact (by decide : ∀ x ∈ str "status", x ≠ '\n' ∧ x ≠ '"') c hcq
          · exact (by decide : ∀ x ∈ str "referral_source", x ≠ '\n' ∧ x ≠ '"') c hcq
        · exact hkeys q hk c hcq
      · simp only [List.mem_cons, List.not_mem_nil, or_false] at hq3
        rcases hq3 with rfl | rfl
        · exact (by decide : ∀ x ∈ str "confirmed_at", x ≠ '\n' ∧ x ≠ '"') c hcq
        · exact (by decide : ∀ x ∈ str "created_at", x ≠ '\n' ∧ x ≠ '"') c hcq
  obtain ⟨header, hheaderdef⟩ : ∃ h, joinSep [','] ([str "position", str "email",
      str "status", str "referral_source"] ++ keys ++ [str "confirmed_at",
      str "created_at"]) = h := ⟨_, rfl⟩
  rw [hheaderdef] at hheader
  have hhe : header.isEmpty = false := by
    rw [← hheaderdef]
    rfl
  cases signups with
  | nil =>
    have hform : exportCsv render keys [] = header := by
      rw [← hheaderdef]
      rfl
    obtain ⟨cells, hcells⟩ :=
      (parseRowAux_skip (header.length + 1) header (by omega) hheader).1
    have hpc : parseCsv header = [cells] := by
      unfold parseCsv
      simp only [parseCsvAux, hhe, Bool.false_eq_true, if_false]
      rw [hcells]
      simp
    rw [hform, hpc]
    refine ⟨by simp, by simp, ?_⟩
    intro i hi
    simp at hi
  | cons s ss =>
    have hrowsne : ∀ r ∈ (s :: ss).map (signupRow render keys), r ≠ [] := by
      intro r hr
      rcases List.mem_map.mp hr with ⟨x, _, rfl⟩
      simp [signupRow]
    obtain ⟨body, hbodydef⟩ : ∃ b,
        joinSep ['\n'] (((s :: ss).map (signupRow render keys)).map rowLine) = b :=
      ⟨_, rfl⟩
    have hform : exportCsv render keys (s :: ss) = header ++ '\n' :: body := by
      rw [← hbodydef, ← hheaderdef]
      unfold exportCsv
      rw [List.map_map, List.map_cons, joinSep_cons_cons, List.append_assoc]
      rfl
    have hlen : (header ++ '\n' :: body).length =
        header.length + 1 + body.length := by
      simp
      omega
    obtain ⟨cells, hcells⟩ :=
      (parseRowAux_skip ((header ++ '\n' :: body).length + 1) header
        (by omega) hheader).2 body
    have hbound := joinSep_rowLines_length ((s :: ss).map (signupRow render keys))
      (by simp) hrowsne
    rw [hbodydef] at hbound
    have hbodyparse := parseCsvAux_rows (header ++ '\n' :: body).length
      ((s :: ss).map (signupRow render keys)) (by simp) hrowsne
      (by
        simp only [List.length_map, List.length_cons] at hbound ⊢
        omega)
    rw [hbodydef] at hbodyparse
    have hne2 : (header ++ '\n' :: body).isEmpty = false := by
      cases header <;> simp
    have hpc : parseCsv (header ++ '\n' :: body) =
        cells :: (s :: ss).map (signupRow render keys) := by
      unfold parseCsv
      simp only [parseCsvAux, hne2, Bool.false_eq_true, if_false]
      rw [hcells]
      simp only
      rw [hbodyparse]
      simp
    rw [hform, hpc]
    refine ⟨by simp, by simp, ?_⟩
    intro i hi hi'
    simp only [List.get_eq_getElem, List.getElem_cons_succ, List.getElem_map]
    simp [signupRow]

/-- Witness for `c9_csv_round_trip`: one signup with an embedded quote in its
referral source and a comma in a custom value; the parsed export has two
records and its data record equals the exported row. -/
theorem c9_csv_round_trip_witness :
    (parseCsv (exportCsv natStr [str "color"]
      [⟨str "s1", str "w1", str "a@x.com", 1, SignupStatus.confirmed,
        [(str "color", str "re,d")], some (str "pro\"duct"), none, none, none,
        some 33, 44⟩])).length = 2 ∧
    (parseCsv (exportCsv natStr [str "color"]
      [⟨str "s1", str "w1", str "a@x.com", 1, SignupStatus.confirmed,
        [(str "color", str "re,d")], some (str "pro\"duct"), none, none, none,
        some 33, 44⟩])).drop 1 =
      [signupRow natStr [str "color"]
        ⟨str "s1", str "w1", str "a@x.com", 1, SignupStatus.confirmed,
          [(str "color", str "re,d")], some (str "pro\"duct"), none, none, none,
          some 33, 44⟩] := by
  have h := c9_csv_round_trip natStr [str "color"]
    [⟨str "s1", str "w1", str "a@x.com", 1, SignupStatus.confirmed,
      [(str "color", str "re,d")], some (str "pro\"duct"), none, none, none,
      some 33, 44⟩]
    (by decide)
  exact ⟨h.1, h.2.1⟩

end Olist
